import Mathlib

/-!
Verification of the PDF ingestion pipeline of QuizGen-Ai
(`src/utils/pdfUtils.ts` and `src/utils/ocrUtils.ts`).

The development is a shallow embedding of the two modules:

* strings are Lean `String`s (lists of Unicode code points; every concrete
  string evaluated here is in the BMP, where JavaScript's UTF-16 `length`
  agrees with the code-point count);
* JavaScript `number` arithmetic appearing in the pipeline
  (luma weighting, progress percentages) is modelled over `ℚ`.  All
  quantities involved are tiny rationals whose double-precision images are
  far from every rounding boundary used by the code, so the rational model
  agrees with the floating-point computation on the whole input space
  considered here;
* the external collaborators (pdf.js and Tesseract) are modelled as
  environments: a document is the list of per-page text-fetch outcomes, an
  OCR environment maps a page number to the outcome of rendering and
  recognizing that page.
-/

namespace QuizGen

/-! ## JavaScript string primitives -/

/-- Characters removed by the first `replace` of `cleanText`
(`/[\x00-\x08\x0B\x0C\x0E-\x1F\x7F]/g`): control characters other than
tab, line feed and carriage return. -/
def isStrippedCtl (c : Char) : Bool :=
  (c.toNat ≤ 0x08) || c.toNat = 0x0B || c.toNat = 0x0C ||
  (0x0E ≤ c.toNat && c.toNat ≤ 0x1F) || c.toNat = 0x7F

/-- White-space characters for JavaScript `String.prototype.trim`
(ECMA-262 `TrimString`): WhiteSpace and LineTerminator code points. -/
def isJsWs (c : Char) : Bool :=
  c.toNat = 0x09 || c.toNat = 0x0A || c.toNat = 0x0B || c.toNat = 0x0C ||
  c.toNat = 0x0D || c.toNat = 0x20 || c.toNat = 0xA0 || c.toNat = 0x1680 ||
  (0x2000 ≤ c.toNat && c.toNat ≤ 0x200A) || c.toNat = 0x2028 ||
  c.toNat = 0x2029 || c.toNat = 0x202F || c.toNat = 0x205F ||
  c.toNat = 0x3000 || c.toNat = 0xFEFF

/-- JavaScript `s.trim()`. -/
def jsTrim (s : String) : String :=
  ⟨((s.data.dropWhile isJsWs).reverse.dropWhile isJsWs).reverse⟩

/-- Word characters of the JavaScript regexp class `\w`: `[A-Za-z0-9_]`. -/
def isWordChar (c : Char) : Bool :=
  (0x30 ≤ c.toNat && c.toNat ≤ 0x39) || (0x41 ≤ c.toNat && c.toNat ≤ 0x5A) ||
  (0x61 ≤ c.toNat && c.toNat ≤ 0x7A) || c.toNat = 0x5F

/-- The space/tab class `[ \t]` of `cleanText`'s white-space collapsing. -/
def isSpaceTab (c : Char) : Bool :=
  c.toNat = 0x20 || c.toNat = 0x09

/-- JavaScript `replace(/[ \t]+/g, ' ')`: every maximal run of spaces and
tabs becomes a single space.  The boolean argument records whether the
previous character belonged to such a run. -/
def collapseWsAux : Bool → List Char → List Char
  | _, [] => []
  | prevWs, c :: rest =>
    if isSpaceTab c then
      if prevWs then collapseWsAux true rest
      else ' ' :: collapseWsAux true rest
    else c :: collapseWsAux false rest

/-- Tokens used to implement `replace(/(\w+)-\n(\w+)/g, '$1$2')`: a maximal
nonempty run of word characters, or a single other character. -/
inductive Tok where
  | word (w : List Char)
  | ch (c : Char)
deriving DecidableEq

/-- One step of tokenization (processed right to left by `tokenize`):
a word character joins a word token immediately to its right, any other
character stands alone. -/
def pushTok (c : Char) : List Tok → List Tok
  | Tok.word w :: ts =>
    if isWordChar c then Tok.word (c :: w) :: ts
    else Tok.ch c :: Tok.word w :: ts
  | ts =>
    if isWordChar c then Tok.word [c] :: ts else Tok.ch c :: ts

/-- Splits a character list into maximal word runs and single characters. -/
def tokenize (l : List Char) : List Tok := l.foldr pushTok []

/-- Global replacement `(\w+)-\n(\w+) → $1$2` on the token stream.  The
scan resumes after the second captured word run, exactly as a JavaScript
global regexp does with its `lastIndex`. -/
def dehyphenTok : List Tok → List Char
  | Tok.word w :: Tok.ch '-' :: Tok.ch '\n' :: Tok.word w2 :: rest =>
    w ++ w2 ++ dehyphenTok rest
  | Tok.word w :: rest => w ++ dehyphenTok rest
  | Tok.ch c :: rest => c :: dehyphenTok rest
  | [] => []

/-- JavaScript `replace(/(\w+)-\n(\w+)/g, '$1$2')`. -/
def dehyphen (l : List Char) : List Char := dehyphenTok (tokenize l)

/-- Unicode NFKC normalization (`String.prototype.normalize('NFKC')`).
NFKC is the identity on ASCII strings, and every string this development
feeds through the pipeline is ASCII, so it is modelled as the identity. -/
def nfkc (l : List Char) : List Char := l

/-- `cleanText` of `src/utils/pdfUtils.ts` (lines 14–22): strip control
characters, normalize, collapse horizontal white space, rejoin hyphenated
line-broken words, trim.  The initial emptiness test models the JavaScript
falsiness check `if (!text) return ""`. -/
def cleanText (text : String) : String :=
  if text = "" then ""
  else jsTrim ⟨dehyphen (collapseWsAux false (nfkc (text.data.filter (fun c => !isStrippedCtl c))))⟩

/-- `matchesAt p l` holds when `p` occurs at the head of `l`. -/
def matchesAt : List Char → List Char → Bool
  | [], _ => true
  | _ :: _, [] => false
  | a :: p', b :: l' => a == b && matchesAt p' l'

/-- `hasInfixChars p l` holds when `p` occurs somewhere inside `l`. -/
def hasInfixChars (p : List Char) : List Char → Bool
  | [] => matchesAt p []
  | c :: rest => matchesAt p (c :: rest) || hasInfixChars p rest

/-- JavaScript `s.includes(pat)`. -/
def jsIncludes (s pat : String) : Bool := hasInfixChars pat.data s.data

/-! ## JavaScript numeric primitives -/

/-- JavaScript `Math.round` on a non-negative argument: half-up rounding. -/
def jsRound (q : ℚ) : ℤ := ⌊q + 1 / 2⌋

/-- Storing a JavaScript number into a `Uint8ClampedArray` cell: clamp to
`[0, 255]` and round to the nearest integer, ties to even. -/
def clampRound (q : ℚ) : Nat :=
  if q ≤ 0 then 0
  else if 255 ≤ q then 255
  else
    let f := ⌊q⌋
    let r := q - f
    if r < 1 / 2 then f.toNat
    else if 1 / 2 < r then f.toNat + 1
    else if f % 2 = 0 then f.toNat else f.toNat + 1

/-! ## Image preprocessing (`applyImagePreprocessing`, ocrUtils.ts 23–65) -/

/-- The Rec. 601 luma of one pixel: `0.299*R + 0.587*G + 0.114*B`. -/
def lumaQ (r g b : Nat) : ℚ :=
  (0.299 : ℚ) * r + (0.587 : ℚ) * g + (0.114 : ℚ) * b

/-- Pass 1 of `applyImagePreprocessing`: walk the RGBA byte array with
stride 4, overwrite R, G and B with the (clamped-rounded) luma, leave the
alpha byte alone, and accumulate the total (unrounded) luma. -/
def pass1 : List Nat → List Nat × ℚ
  | r :: g :: b :: a :: rest =>
    let l := lumaQ r g b
    let p := pass1 rest
    (clampRound l :: clampRound l :: clampRound l :: a :: p.1, l + p.2)
  | other => (other, 0)

/-- Pass 2 of `applyImagePreprocessing`: binarization.  The stored R byte
(the rounded luma) is compared against the threshold; R, G and B become
`0` or `255`, the alpha byte is untouched. -/
def pass2 (thr : ℚ) : List Nat → List Nat
  | v :: _g :: _b :: a :: rest =>
    let val := if (v : ℚ) < thr then 0 else 255
    val :: val :: val :: a :: pass2 thr rest
  | other => other

/-- `applyImagePreprocessing` (ocrUtils.ts 23–65) acting on the flat RGBA
byte array of the canvas.  Returns the new byte array together with the
`{ avgLuma, threshold }` statistics the function reports. -/
def applyImagePreprocessing (data : List Nat) : List Nat × ℚ × ℚ :=
  let p := pass1 data
  let avgLuma := p.2 / ((data.length : ℚ) / 4)
  let threshold := avgLuma * (0.9 : ℚ)
  (pass2 threshold p.1, avgLuma, threshold)

/-- An RGBA pixel: red, green, blue, alpha bytes. -/
def Pixel := Nat × Nat × Nat × Nat
deriving DecidableEq

/-- Flattens a pixel list into the RGBA byte array backing a canvas. -/
def pixelsToData : List Pixel → List Nat
  | [] => []
  | (r, g, b, a) :: rest => r :: g :: b :: a :: pixelsToData rest

/-- The alpha bytes (every fourth byte) of an RGBA byte array. -/
def dataAlphas : List Nat → List Nat
  | _ :: _ :: _ :: a :: rest => a :: dataAlphas rest
  | _ => []

/-- Each pixel of the array is pure black `(0,0,0)` or pure white
`(255,255,255)`. -/
def isBinaryData : List Nat → Bool
  | r :: g :: b :: _ :: rest =>
    (((r = 0 && g = 0) && b = 0) || ((r = 255 && g = 255) && b = 255)) && isBinaryData rest
  | _ => true

/-! ## Concatenation helper (JavaScript `array.join('')`) -/

/-- `list.join('')` for strings. -/
def joinStr : List String → String
  | [] => ""
  | s :: rest => s ++ joinStr rest

/-! ## The document model

A `TextItem` is one positioned text run of the pdf.js text layer: its
string and its end-of-line flag (position is unused by the extractor
beyond the order of the items).  A `PageFetch` is the outcome of the
extractor's per-page interaction with pdf.js:

* `ok items` — `getPage` and `getTextContent` succeeded in time;
* `timeout` — the 5-second `Promise.race` deadline fired (or
  `getTextContent` rejected); the `catch` at pdfUtils.ts line 80 turns
  this into `{ items: [] }`, so the page is treated as empty but progress
  is still reported;
* `pageError` — `getPage` itself (or anything else inside the per-page
  `try`) threw; the `catch` at line 109 skips the page entirely, without
  even a progress report.
-/

structure TextItem where
  str : String
  hasEOL : Bool
deriving DecidableEq

inductive PageFetch where
  | ok (items : List TextItem)
  | timeout
  | pageError
deriving DecidableEq

/-- An opened pdf.js document handle: the per-page text-fetch outcomes.
`numPages` is the length of the list. -/
structure PDFDoc where
  pages : List PageFetch
deriving DecidableEq

/-- The text items the extractor ends up iterating over for a page
(`textContent.items`, after the timeout fallback `{ items: [] }`). -/
def pageItemsOf : PageFetch → List TextItem
  | .ok items => items
  | _ => []

/-! ## The OCR environment

`PageOCR` is the outcome of rendering page `p` to a canvas and running
Tesseract on it, as observed by `runOCRFromPDF`'s inner loop:

* `recognized t` — render, blob conversion and `worker.recognize`
  succeeded and produced text `t`;
* `blobFail` — `canvas.toBlob` yielded `null` (line 142);
* `pageError m` — rendering or recognition threw an error with message
  `m` (line 164).
-/

inductive PageOCR where
  | recognized (text : String)
  | blobFail
  | pageError (msg : String)

/-- The recognition collaborator for one `runOCRFromPDF` call:
whether `createWorker` succeeds (`createErr = none`) or throws with a
given message, and the per-page render/recognize outcome. -/
structure OCREnv where
  createErr : Option String
  recognize : Nat → PageOCR

/-! ## runOCRFromPDF (ocrUtils.ts 103–205) -/

/-- The mutable state of `runOCRFromPDF`'s loop, plus two observation
lists: the progress values passed to `onProgress` and the pages whose
bodies were entered, both in order of occurrence. -/
structure OCRState where
  fullText : String
  failedPages : Nat
  progress : List Int
  processed : List Nat
deriving DecidableEq

/-- The cancellation signal.  `cancelAt = some c` means the caller's
`AbortSignal` is set from the moment page `c` would be checked onwards
(the signal is monotone: once aborted, always aborted); `none` means it
is never set. `sigAt` is the value `signal?.aborted` reads at the check
guarding page (or batch start) `p`. -/
def sigAt (cancelAt : Option Nat) (p : Nat) : Bool :=
  match cancelAt with
  | some c => decide (c ≤ p)
  | none => false

/-- Whether a page-level error message makes the whole run abort
(`pageErr.message?.includes('memory') || pageErr.message?.includes('wasm')`,
line 169). -/
def isFatalPage : PageOCR → Bool
  | .pageError m => jsIncludes m "memory" || jsIncludes m "wasm"
  | _ => false

/-- The two exceptions that escape the page loop: the `OCR_ABORTED`
cancellation marker and the fatal Tesseract memory error. -/
inductive OCRFatal where
  | abortedSig
  | memoryErr
deriving DecidableEq

/-- The `--- Page p (OCR) ---` block appended for a page whose recognized
text is non-blank (line 154). -/
def ocrBlock (p : Nat) (t : String) : String :=
  "--- Page " ++ toString p ++ " (OCR) ---\n" ++ t ++ "\n\n"

/-- The body of `runOCRFromPDF`'s inner loop for page `p` (ocrUtils.ts
134–172), preceded by the per-page cancellation check (line 135).
`n` is `numPages = min(pdfDoc.numPages, maxPages)`. -/
def ocrPageStep (env : OCREnv) (cancelAt : Option Nat) (n : Nat) (p : Nat)
    (st : OCRState) : Except (OCRFatal × OCRState) OCRState :=
  if sigAt cancelAt p then .error (.abortedSig, st)
  else
    let st := { st with processed := st.processed ++ [p] }
    match env.recognize p with
    | .blobFail => .ok { st with failedPages := st.failedPages + 1 }
    | .recognized t =>
      let st :=
        if 0 < (jsTrim t).length then
          { st with fullText := st.fullText ++ ocrBlock p t }
        else st
      .ok { st with progress := st.progress ++ [jsRound ((p : ℚ) / (n : ℚ) * 100)] }
    | .pageError m =>
      let st := { st with failedPages := st.failedPages + 1 }
      if jsIncludes m "memory" || jsIncludes m "wasm" then .error (.memoryErr, st)
      else .ok st

/-- Runs the inner loop over a list of page numbers. -/
def ocrPages (env : OCREnv) (cancelAt : Option Nat) (n : Nat) :
    List Nat → OCRState → Except (OCRFatal × OCRState) OCRState
  | [], st => .ok st
  | p :: rest, st =>
    match ocrPageStep env cancelAt n p st with
    | .error e => .error e
    | .ok st' => ocrPages env cancelAt n rest st'

/-- The pages of the batch starting at `i`:
`i .. min(i + batchSize - 1, n)` (ocrUtils.ts line 131). -/
def batchPages (n bs i : Nat) : List Nat :=
  List.range' i (Nat.min (i + bs - 1) n + 1 - i)

/-- The starting pages of the batches: `1, 1+bs, 2*bs+1, …` while `≤ n`
(the header of the outer loop, line 128).  There are `⌈n / bs⌉` batches. -/
def batchStarts (n bs : Nat) : List Nat :=
  List.range' 1 ((n + bs - 1) / bs) bs

/-- The outer batch loop (ocrUtils.ts 128–177): the batch-boundary
cancellation check (line 129), the batch itself, and the end-of-batch
zero-delay yield (line 176; a no-op for the state). -/
def ocrBatches (env : OCREnv) (cancelAt : Option Nat) (n bs : Nat) :
    List Nat → OCRState → Except (OCRFatal × OCRState) OCRState
  | [], st => .ok st
  | i :: rest, st =>
    if sigAt cancelAt i then .error (.abortedSig, st)
    else
      match ocrPages env cancelAt n (batchPages n bs i) st with
      | .error e => .error e
      | .ok st' => ocrBatches env cancelAt n bs rest st'

/-- The outcome of `runOCRFromPDF` as classified by its `catch` block
(ocrUtils.ts 189–199): success, the distinguished cancelled error
(line 190), a propagated error whose message mentions Tesseract
(line 196), or the generic wrapper `"Lỗi xử lý OCR: " + message`
(line 199). -/
inductive OCROutcome where
  | ok (text : String)
  | cancelled
  | tesseract (msg : String)
  | generic (msg : String)
deriving DecidableEq

/-- The message of the error thrown on cancellation (line 191). -/
def cancelledMsg : String := "Đã hủy quá trình OCR."

/-- The message of the fatal Tesseract memory error (line 170). -/
def memoryMsg : String := "Tesseract Memory Error: Trình duyệt không đủ bộ nhớ để xử lý ảnh này."

/-- The message of the `NoTextRecognized` error (line 180). -/
def noTextMsg : String := "OCR hoàn tất nhưng không tìm thấy văn bản nào. Có thể ảnh quá mờ hoặc handwriting không đọc được."

/-- The `catch` block of `runOCRFromPDF` (lines 189–199), mapping the
message of a thrown error to the outcome the caller sees. -/
def ocrCatch (m : String) : OCROutcome :=
  if m = "OCR_ABORTED" then .cancelled
  else if jsIncludes m "Tesseract" then .tesseract m
  else .generic ("Lỗi xử lý OCR: " ++ m)

/-- Everything one `runOCRFromPDF` call did: its outcome, the final value
of the `fullText` accumulator, the progress values reported, the pages
whose bodies were entered, the failed-page counter, and whether the
`finally` block terminated a worker (it does whenever `createWorker`
succeeded, on every exit path). -/
structure OCRRun where
  outcome : OCROutcome
  fullText : String
  progress : List Int
  processed : List Nat
  failedPages : Nat
  workerTerminated : Bool
deriving DecidableEq

/-- `runOCRFromPDF` (ocrUtils.ts 103–205).  `numPdfPages` is
`pdfDoc.numPages`; `maxPages` and `bs` are the corresponding options
(defaults 70 and 5).  The model assumes `bs ≥ 1` wherever the batch
structure matters — with `bs = 0` the source would loop forever, and
every caller uses the default 5. -/
def runOCRFromPDF (numPdfPages maxPages bs : Nat) (env : OCREnv)
    (cancelAt : Option Nat) : OCRRun :=
  match env.createErr with
  | some m =>
    { outcome := ocrCatch m, fullText := "", progress := [], processed := [],
      failedPages := 0, workerTerminated := false }
  | none =>
    let n := Nat.min numPdfPages maxPages
    let st0 : OCRState := { fullText := "", failedPages := 0, progress := [], processed := [] }
    match ocrBatches env cancelAt n bs (batchStarts n bs) st0 with
    | .error (.abortedSig, st) =>
      { outcome := ocrCatch "OCR_ABORTED", fullText := st.fullText,
        progress := st.progress, processed := st.processed,
        failedPages := st.failedPages, workerTerminated := true }
    | .error (.memoryErr, st) =>
      { outcome := ocrCatch memoryMsg, fullText := st.fullText,
        progress := st.progress, processed := st.processed,
        failedPages := st.failedPages, workerTerminated := true }
    | .ok st =>
      if (jsTrim st.fullText).length = 0 && decide (0 < n) then
        { outcome := ocrCatch noTextMsg, fullText := st.fullText,
          progress := st.progress, processed := st.processed,
          failedPages := st.failedPages, workerTerminated := true }
      else
        { outcome := .ok st.fullText, fullText := st.fullText,
          progress := st.progress, processed := st.processed,
          failedPages := st.failedPages, workerTerminated := true }

/-! ## extractTextFromPDF (pdfUtils.ts 34–170)

The model starts after `getDocument` resolved (the open-failure branches
of the outer `catch` — password, invalid format, library load — concern
errors thrown by pdf.js itself and are outside the claims considered
here).  Loading progress (lines 53–59) is driven by the `onProgress`
events of the loading task, modelled as the list of `(loaded, total)`
pairs pdf.js reports. -/

/-- The mutable state of the extraction loop plus the progress values
passed to the callback. -/
structure ExtractState where
  fullText : String
  totalItems : Nat
  progress : List Int
deriving DecidableEq

/-- Meaningful items of a page: `items.filter(item => (item.str || '').trim().length > 0)`
(line 87). -/
def meaningfulCount (items : List TextItem) : Nat :=
  (items.filter (fun it => 0 < (jsTrim it.str).length)).length

/-- The raw page text: each item contributes its string followed by a
line feed if it carries `hasEOL`, else a space (lines 90–95). -/
def pageTextOf (items : List TextItem) : String :=
  joinStr (items.map (fun it => it.str ++ (if it.hasEOL then "\n" else " ")))

/-- The `--- Page i ---` block of the text extractor (line 100). -/
def pageMarkerBlock (i : Nat) (cleaned : String) : String :=
  "--- Page " ++ toString i ++ " ---\n" ++ cleaned ++ "\n\n"

/-- The body of the per-page loop of `extractTextFromPDF`
(pdfUtils.ts 71–112) for page `i` of a document with `n` pages. -/
def extractPage (n i : Nat) (pf : PageFetch) (st : ExtractState) : ExtractState :=
  match pf with
  | .pageError => st
  | _ =>
    let items := pageItemsOf pf
    let cleaned := cleanText (pageTextOf items)
    { fullText :=
        if 0 < cleaned.length then st.fullText ++ pageMarkerBlock i cleaned
        else st.fullText,
      totalItems := st.totalItems + meaningfulCount items,
      progress := st.progress ++ [20 + ⌊((i : ℚ) / (n : ℚ)) * 80⌋] }

/-- The per-page loop, `i` counting from 1. -/
def extractGo (n : Nat) : Nat → List PageFetch → ExtractState → ExtractState
  | _, [], st => st
  | i, pf :: rest, st => extractGo n (i + 1) rest (extractPage n i pf st)

/-- The whole page loop of `extractTextFromPDF` (lines 67–112). -/
def extractLoop (pages : List PageFetch) : ExtractState :=
  extractGo pages.length 1 pages { fullText := "", totalItems := 0, progress := [] }

/-- Loading-phase progress (lines 53–59): each `onProgress` event with
`total > 0` reports `round(loaded / total * 20)`. -/
def loadProgress (events : List (Nat × Nat)) : List Int :=
  events.filterMap (fun e =>
    if 0 < e.2 then some (jsRound ((e.1 : ℚ) / (e.2 : ℚ) * 20)) else none)

/-- The outcome of `extractTextFromPDF` on the paths modelled here:

* `text content doc` — the `{ text, pdfDoc }` result (line 129 or 147);
* `scanned doc` — the thrown `PDF_SCANNED` error carrying the still-open
  document handle (lines 136–139), rethrown unchanged by the outer
  `catch` (line 153);
* `encodingFailure` — the font/encoding error (line 143);
* `ocrFailed msg` — the `"OCR thất bại: " + message` error (line 131);
* `emptyDocument` — the zero-page error (line 64).
-/
inductive ExtractOutcome where
  | text (content : String) (doc : PDFDoc)
  | scanned (doc : PDFDoc)
  | encodingFailure
  | ocrFailed (msg : String)
  | emptyDocument
deriving DecidableEq

/-- Whether the outcome is the `Text` result. -/
def ExtractOutcome.isText : ExtractOutcome → Bool
  | .text _ _ => true
  | _ => false

/-- Everything one `extractTextFromPDF` call did: its outcome and the
progress values passed to the callback, in order. -/
structure ExtractRun where
  outcome : ExtractOutcome
  progress : List Int
deriving DecidableEq

/-- `extractTextFromPDF` (pdfUtils.ts 34–170) from the opened document
on.  `MIN_CHARS_TOTAL = 100`, `MIN_ITEMS_TOTAL = 10` (lines 117–118).
When the scanned branch runs with `enableOCR`, `runOCRFromPDF` is called
with the same progress callback, the default options (`maxPages = 70`,
`batchSize = 5`) and no cancellation signal (lines 126–128). -/
def extractTextFromPDF (doc : PDFDoc) (enableOCR : Bool)
    (events : List (Nat × Nat)) (env : OCREnv) : ExtractRun :=
  let lp := loadProgress events
  if doc.pages.length = 0 then { outcome := .emptyDocument, progress := lp }
  else
    let st := extractLoop doc.pages
    let prog := lp ++ st.progress
    if (jsTrim st.fullText).length < 100 then
      if st.totalItems < 10 then
        if enableOCR then
          let r := runOCRFromPDF doc.pages.length 70 5 env none
          match r.outcome with
          | .ok t => { outcome := .text t doc, progress := prog ++ r.progress }
          | .cancelled =>
            { outcome := .ocrFailed ("OCR thất bại: " ++ cancelledMsg), progress := prog ++ r.progress }
          | .tesseract m =>
            { outcome := .ocrFailed ("OCR thất bại: " ++ m), progress := prog ++ r.progress }
          | .generic m =>
            { outcome := .ocrFailed ("OCR thất bại: " ++ m), progress := prog ++ r.progress }
        else { outcome := .scanned doc, progress := prog }
      else { outcome := .encodingFailure, progress := prog }
    else { outcome := .text st.fullText doc, progress := prog }

/-! ## Characterization of the extraction loop -/

/-- The block page `i` contributes to `fullText`: nothing for a skipped
or empty-after-cleaning page, else its marker block. -/
def pageBlock (i : Nat) (pf : PageFetch) : String :=
  match pf with
  | .pageError => ""
  | _ =>
    let c := cleanText (pageTextOf (pageItemsOf pf))
    if 0 < c.length then pageMarkerBlock i c else ""

/-- The concatenated page blocks of a run of pages starting at page `i`. -/
def blocksFrom : Nat → List PageFetch → String
  | _, [] => ""
  | i, pf :: rest => pageBlock i pf ++ blocksFrom (i + 1) rest

/-- The total meaningful-item count of a run of pages. -/
def itemsFrom : List PageFetch → Nat
  | [] => 0
  | pf :: rest => meaningfulCount (pageItemsOf pf) + itemsFrom rest

/-- The extraction-phase progress values of a run of pages starting at
page `i` of an `n`-page document. -/
def progressFrom (n : Nat) : Nat → List PageFetch → List Int
  | _, [] => []
  | i, .pageError :: rest => progressFrom n (i + 1) rest
  | i, _ :: rest => (20 + ⌊((i : ℚ) / (n : ℚ)) * 80⌋) :: progressFrom n (i + 1) rest

lemma extractGo_eq (n : Nat) (ps : List PageFetch) : ∀ (i : Nat) (st : ExtractState),
    extractGo n i ps st =
      { fullText := st.fullText ++ blocksFrom i ps,
        totalItems := st.totalItems + itemsFrom ps,
        progress := st.progress ++ progressFrom n i ps } := by
  induction ps with
  | nil => intro i st; simp [extractGo, blocksFrom, itemsFrom, progressFrom]
  | cons pf rest ih =>
    intro i st
    match pf with
    | .pageError =>
      simp [extractGo, extractPage, ih, blocksFrom, itemsFrom, progressFrom,
        pageBlock, pageItemsOf, meaningfulCount]
    | .ok items =>
      simp only [extractGo, extractPage, ih, blocksFrom, itemsFrom, progressFrom,
        pageBlock, pageItemsOf]
      rw [ExtractState.mk.injEq]
      refine ⟨?_, by omega, by simp⟩
      split <;> simp [String.append_assoc]
    | .timeout =>
      simp only [extractGo, extractPage, ih, blocksFrom, itemsFrom, progressFrom,
        pageBlock, pageItemsOf]
      rw [ExtractState.mk.injEq]
      refine ⟨?_, by omega, by simp⟩
      split <;> simp [String.append_assoc]

lemma extractLoop_eq (pages : List PageFetch) :
    extractLoop pages =
      { fullText := blocksFrom 1 pages,
        totalItems := itemsFrom pages,
        progress := progressFrom pages.length 1 pages } := by
  simp [extractLoop, extractGo_eq]

lemma blocksFrom_append (l1 l2 : List PageFetch) : ∀ i,
    blocksFrom i (l1 ++ l2) = blocksFrom i l1 ++ blocksFrom (i + l1.length) l2 := by
  induction l1 with
  | nil => intro i; simp [blocksFrom]
  | cons pf rest ih =>
    intro i
    have hc : (pf :: rest) ++ l2 = pf :: (rest ++ l2) := rfl
    rw [hc, blocksFrom, blocksFrom, ih (i + 1), List.length_cons, String.append_assoc]
    have h : i + 1 + rest.length = i + (rest.length + 1) := by omega
    rw [h]

/-! ## Characterization of the OCR loop -/

/-- The block page `p` contributes to the OCR `fullText`, if any. -/
def contribBlockOf (env : OCREnv) (p : Nat) : Option String :=
  match env.recognize p with
  | .recognized t => if 0 < (jsTrim t).length then some (ocrBlock p t) else none
  | _ => none

/-- The OCR text accumulated over a list of pages: the concatenation, in
page order, of the `--- Page p (OCR) ---` blocks of the contributing
pages. -/
def contribText (env : OCREnv) (ps : List Nat) : String :=
  joinStr (ps.filterMap (contribBlockOf env))

/-- The progress value reported after page `p` of `n`:
`Math.round(p / n * 100)`. -/
def ocrProgVal (n p : Nat) : Int := jsRound ((p : ℚ) / (n : ℚ) * 100)

/-- The progress values reported over a list of pages (only pages whose
recognition succeeded report progress). -/
def ocrProgressOf (env : OCREnv) (n : Nat) (ps : List Nat) : List Int :=
  ps.filterMap (fun p =>
    match env.recognize p with
    | .recognized _ => some (ocrProgVal n p)
    | _ => none)

/-- How many pages of the list increment the `failedPages` counter. -/
def failsOf (env : OCREnv) (ps : List Nat) : Nat :=
  ps.countP (fun p =>
    match env.recognize p with
    | .recognized _ => false
    | _ => true)

/-- The exception (if any) that stops the run while working through the
given page list. -/
def ocrStop (env : OCREnv) (cancelAt : Option Nat) : List Nat → Option OCRFatal
  | [] => none
  | p :: rest =>
    if sigAt cancelAt p then some .abortedSig
    else if isFatalPage (env.recognize p) then some .memoryErr
    else ocrStop env cancelAt rest

/-- The pages of the list whose bodies are actually entered: everything
up to the first cancellation check that fires (exclusive) or the first
fatal page error (inclusive). -/
def ocrEntered (env : OCREnv) (cancelAt : Option Nat) : List Nat → List Nat
  | [] => []
  | p :: rest =>
    if sigAt cancelAt p then []
    else if isFatalPage (env.recognize p) then [p]
    else p :: ocrEntered env cancelAt rest

/-- Extends an OCR state by the effect of working through the pages `ps`. -/
def ocrExtend (env : OCREnv) (n : Nat) (st : OCRState) (ps : List Nat) : OCRState :=
  { fullText := st.fullText ++ contribText env ps,
    failedPages := st.failedPages + failsOf env ps,
    progress := st.progress ++ ocrProgressOf env n ps,
    processed := st.processed ++ ps }

lemma ocrExtend_nil (env : OCREnv) (n : Nat) (st : OCRState) :
    ocrExtend env n st [] = st := by
  simp [ocrExtend, contribText, ocrProgressOf, failsOf, joinStr]

/-- Prepending a page whose blob conversion failed. -/
lemma ocrExtend_cons_blob (env : OCREnv) (n p : Nat) (st : OCRState) (l : List Nat)
    (hr : env.recognize p = .blobFail) :
    ocrExtend env n st (p :: l) =
      ocrExtend env n
        { st with processed := st.processed ++ [p], failedPages := st.failedPages + 1 } l := by
  simp only [ocrExtend, contribText, ocrProgressOf, failsOf,
    List.filterMap_cons, List.countP_cons, contribBlockOf, hr]
  rw [OCRState.mk.injEq]
  refine ⟨rfl, by simp; omega, rfl, by simp⟩

/-- Prepending a page whose rendering or recognition threw. -/
lemma ocrExtend_cons_err (env : OCREnv) (n p : Nat) (st : OCRState) (l : List Nat)
    (m : String) (hr : env.recognize p = .pageError m) :
    ocrExtend env n st (p :: l) =
      ocrExtend env n
        { st with processed := st.processed ++ [p], failedPages := st.failedPages + 1 } l := by
  simp only [ocrExtend, contribText, ocrProgressOf, failsOf,
    List.filterMap_cons, List.countP_cons, contribBlockOf, hr]
  rw [OCRState.mk.injEq]
  refine ⟨rfl, by simp; omega, rfl, by simp⟩

/-- Prepending a successfully recognized page. -/
lemma ocrExtend_cons_rec (env : OCREnv) (n p : Nat) (st : OCRState) (l : List Nat)
    (t : String) (hr : env.recognize p = .recognized t) :
    ocrExtend env n st (p :: l) =
      ocrExtend env n
        { fullText := if 0 < (jsTrim t).length then st.fullText ++ ocrBlock p t else st.fullText,
          failedPages := st.failedPages,
          progress := st.progress ++ [ocrProgVal n p],
          processed := st.processed ++ [p] } l := by
  by_cases ht : 0 < (jsTrim t).length
  · simp only [ocrExtend, contribText, ocrProgressOf, failsOf,
      List.filterMap_cons, List.countP_cons, contribBlockOf, hr, if_pos ht]
    rw [OCRState.mk.injEq]
    refine ⟨by simp [joinStr, String.append_assoc], by simp, by simp, by simp⟩
  · simp only [ocrExtend, contribText, ocrProgressOf, failsOf,
      List.filterMap_cons, List.countP_cons, contribBlockOf, hr, if_neg ht]
    rw [OCRState.mk.injEq]
    refine ⟨rfl, by simp, by simp, by simp⟩

/-- Master characterization of the inner page loop. -/
lemma ocrPages_eq (env : OCREnv) (ca : Option Nat) (n : Nat) (ps : List Nat) :
    ∀ st, ocrPages env ca n ps st =
      match ocrStop env ca ps with
      | none => .ok (ocrExtend env n st (ocrEntered env ca ps))
      | some f => .error (f, ocrExtend env n st (ocrEntered env ca ps)) := by
  induction ps with
  | nil => intro st; simp [ocrPages, ocrStop, ocrEntered, ocrExtend_nil]
  | cons p rest ih =>
    intro st
    cases hsv : sigAt ca p with
    | true => simp [ocrPages, ocrPageStep, hsv, ocrStop, ocrEntered, ocrExtend_nil]
    | false =>
      match hr : env.recognize p with
      | .blobFail =>
        have hf : isFatalPage (env.recognize p) = false := by rw [hr]; rfl
        have hst : ocrPages env ca n (p :: rest) st =
            ocrPages env ca n rest
              { st with processed := st.processed ++ [p], failedPages := st.failedPages + 1 } := by
          simp [ocrPages, ocrPageStep, hsv, hr]
        rw [hst, ih]
        have h1 : ocrStop env ca (p :: rest) = ocrStop env ca rest := by
          simp [ocrStop, hsv, hf]
        have h2 : ocrEntered env ca (p :: rest) = p :: ocrEntered env ca rest := by
          simp [ocrEntered, hsv, hf]
        rw [h1, h2, ocrExtend_cons_blob env n p st _ hr]
      | .recognized t =>
        have hf : isFatalPage (env.recognize p) = false := by rw [hr]; rfl
        have hst : ocrPages env ca n (p :: rest) st =
            ocrPages env ca n rest
              { fullText :=
                  if 0 < (jsTrim t).length then st.fullText ++ ocrBlock p t else st.fullText,
                failedPages := st.failedPages,
                progress := st.progress ++ [ocrProgVal n p],
                processed := st.processed ++ [p] } := by
          simp only [ocrPages, ocrPageStep, hsv, Bool.false_eq_true, if_false, hr, ocrProgVal, jsRound]
          split <;> rfl
        rw [hst, ih]
        have h1 : ocrStop env ca (p :: rest) = ocrStop env ca rest := by
          simp [ocrStop, hsv, hf]
        have h2 : ocrEntered env ca (p :: rest) = p :: ocrEntered env ca rest := by
          simp [ocrEntered, hsv, hf]
        rw [h1, h2, ocrExtend_cons_rec env n p st _ t hr]
      | .pageError m =>
        cases hm : (jsIncludes m "memory" || jsIncludes m "wasm") with
        | true =>
          have hf : isFatalPage (env.recognize p) = true := by
            rw [hr]; simpa [isFatalPage] using hm
          have hst : ocrPages env ca n (p :: rest) st =
              .error (.memoryErr,
                { st with processed := st.processed ++ [p], failedPages := st.failedPages + 1 }) := by
            simp [ocrPages, ocrPageStep, hsv, hr, hm]
          rw [hst]
          have h1 : ocrStop env ca (p :: rest) = some .memoryErr := by
            simp [ocrStop, hsv, hf]
          have h2 : ocrEntered env ca (p :: rest) = [p] := by
            simp [ocrEntered, hsv, hf]
          rw [h1, h2]
          have he : ocrExtend env n st [p] =
              { st with processed := st.processed ++ [p], failedPages := st.failedPages + 1 } := by
            rw [ocrExtend_cons_err env n p st [] m hr]
            exact ocrExtend_nil ..
          rw [he]
        | false =>
          have hf : isFatalPage (env.recognize p) = false := by
            rw [hr]; simpa [isFatalPage] using hm
          have hst : ocrPages env ca n (p :: rest) st =
              ocrPages env ca n rest
                { st with processed := st.processed ++ [p], failedPages := st.failedPages + 1 } := by
            simp [ocrPages, ocrPageStep, hsv, hr, hm]
          rw [hst, ih]
          have h1 : ocrStop env ca (p :: rest) = ocrStop env ca rest := by
            simp [ocrStop, hsv, hf]
          have h2 : ocrEntered env ca (p :: rest) = p :: ocrEntered env ca rest := by
            simp [ocrEntered, hsv, hf]
          rw [h1, h2, ocrExtend_cons_err env n p st _ m hr]

/-- The inner loop composes over concatenation of page lists. -/
lemma ocrPages_append (env : OCREnv) (ca : Option Nat) (n : Nat) (l1 l2 : List Nat) :
    ∀ st, ocrPages env ca n (l1 ++ l2) st =
      match ocrPages env ca n l1 st with
      | .error e => .error e
      | .ok st' => ocrPages env ca n l2 st' := by
  induction l1 with
  | nil => intro st; simp [ocrPages]
  | cons p rest ih =>
    intro st
    have hc : (p :: rest) ++ l2 = p :: (rest ++ l2) := rfl
    rw [hc]
    simp only [ocrPages]
    cases ocrPageStep env ca n p st with
    | error e => rfl
    | ok st' => exact ih st'

/-- Each batch of the outer loop is nonempty and starts at its index, so
the batch-boundary cancellation check is subsumed by the first per-page
check of the batch. -/
lemma batchPages_cons (n bs i : Nat) (hbs : 1 ≤ bs) (hi : i ≤ n) :
    batchPages n bs i = i :: List.range' (i + 1) (Nat.min (i + bs - 1) n - i) := by
  have hlen : Nat.min (i + bs - 1) n + 1 - i = (Nat.min (i + bs - 1) n - i) + 1 := by
    have h2 : i ≤ Nat.min (i + bs - 1) n := Nat.le_min.mpr ⟨by omega, hi⟩
    omega
  rw [batchPages, hlen, List.range'_succ]

/-- The page lists of the batches starting at `i` concatenate to the
remaining page range `i .. n`. -/
lemma ocrBatches_eq_pages (env : OCREnv) (ca : Option Nat) (n bs : Nat) (hbs : 1 ≤ bs) :
    ∀ (k i : Nat) (st : OCRState), 1 ≤ i → i ≤ n → k = (n - i) / bs →
      ocrBatches env ca n bs (List.range' i (k + 1) bs) st =
        ocrPages env ca n (List.range' i (n + 1 - i)) st := by
  intro k
  induction k with
  | zero =>
    intro i st h1 h2 h3
    have hlt : n - i < bs := by
      rcases Nat.lt_or_ge (n - i) bs with h | h
      · exact h
      · exfalso
        have := Nat.div_le_div_right (c := bs) h
        rw [Nat.div_self (by omega)] at this
        omega
    have hbp : batchPages n bs i = List.range' i (n + 1 - i) := by
      have hmin : Nat.min (i + bs - 1) n = n := Nat.min_eq_right (by omega)
      rw [batchPages, hmin]
    have hr1 : List.range' i (0 + 1) bs = [i] := by simp [List.range']
    rw [hr1]
    show (if sigAt ca i then Except.error ((OCRFatal.abortedSig, st) : OCRFatal × OCRState)
          else match ocrPages env ca n (batchPages n bs i) st with
               | .error e => .error e
               | .ok st' => ocrBatches env ca n bs [] st') = _
    cases hsv : sigAt ca i with
    | true =>
      rw [if_pos rfl]
      have hcons : List.range' i (n + 1 - i) = i :: List.range' (i + 1) (n - i) := by
        have : n + 1 - i = (n - i) + 1 := by omega
        rw [this, List.range'_succ]
      rw [hcons]
      show _ = (match ocrPageStep env ca n i st with
                | .error e => .error e
                | .ok st' => ocrPages env ca n (List.range' (i + 1) (n - i)) st')
      rw [ocrPageStep, if_pos hsv]
    | false =>
      rw [if_neg (by simp [hsv]), hbp]
      cases ocrPages env ca n (List.range' i (n + 1 - i)) st with
      | error e => rfl
      | ok st' => rfl
  | succ k ih =>
    intro i st h1 h2 h3
    have hge : bs ≤ n - i := by
      rcases Nat.lt_or_ge (n - i) bs with h | h
      · exfalso; rw [Nat.div_eq_of_lt h] at h3; omega
      · exact h
    have hbp : batchPages n bs i = List.range' i bs := by
      have hmin : Nat.min (i + bs - 1) n = i + bs - 1 := Nat.min_eq_left (by omega)
      rw [batchPages, hmin]
      congr 1
      omega
    have hsplit : List.range' i (n + 1 - i) =
        List.range' i bs ++ List.range' (i + bs) (n + 1 - (i + bs)) := by
      have hra := List.range'_append i bs (n + 1 - (i + bs)) 1
      rw [Nat.one_mul] at hra
      have harg : n + 1 - i = (n + 1 - (i + bs)) + bs := by omega
      rw [harg, ← hra]
    have hdiv : k = (n - (i + bs)) / bs := by
      have hh : n - i = (n - (i + bs)) + bs := by omega
      rw [hh, Nat.add_div_right _ (by omega)] at h3
      omega
    have hcons : List.range' i (k + 1 + 1) bs = i :: List.range' (i + bs) (k + 1) bs := by
      rw [List.range'_succ]
    rw [hcons]
    show (if sigAt ca i then Except.error ((OCRFatal.abortedSig, st) : OCRFatal × OCRState)
          else match ocrPages env ca n (batchPages n bs i) st with
               | .error e => .error e
               | .ok st' => ocrBatches env ca n bs (List.range' (i + bs) (k + 1) bs) st') = _
    cases hsv : sigAt ca i with
    | true =>
      rw [if_pos rfl]
      have hcons2 : List.range' i (n + 1 - i) = i :: List.range' (i + 1) (n - i) := by
        have : n + 1 - i = (n - i) + 1 := by omega
        rw [this, List.range'_succ]
      rw [hcons2]
      show _ = (match ocrPageStep env ca n i st with
                | .error e => .error e
                | .ok st' => ocrPages env ca n (List.range' (i + 1) (n - i)) st')
      rw [ocrPageStep, if_pos hsv]
    | false =>
      rw [if_neg (by simp [hsv]), hbp, hsplit, ocrPages_append]
      cases ocrPages env ca n (List.range' i bs) st with
      | error e => rfl
      | ok st' => exact ih (i + bs) st' (by omega) (by omega) hdiv

/-- With a positive batch size the outer batch loop is the inner loop
over the full page range `1 .. n`. -/
lemma ocrBatches_run (env : OCREnv) (ca : Option Nat) (n bs : Nat) (hbs : 1 ≤ bs)
    (st : OCRState) :
    ocrBatches env ca n bs (batchStarts n bs) st =
      ocrPages env ca n (List.range' 1 n) st := by
  rcases Nat.eq_zero_or_pos n with hn | hn
  · subst hn
    have h0 : (0 + bs - 1) / bs = 0 := Nat.div_eq_of_lt (by omega)
    rw [batchStarts, h0]
    simp [List.range', ocrBatches, ocrPages]
  · have hk : (n + bs - 1) / bs = (n - 1) / bs + 1 := by
      have hh : n + bs - 1 = (n - 1) + bs := by omega
      rw [hh, Nat.add_div_right _ (by omega)]
    rw [batchStarts, hk]
    exact ocrBatches_eq_pages env ca n bs hbs ((n - 1) / bs) 1 st (by omega) (by omega) rfl

lemma ocrCatch_aborted : ocrCatch "OCR_ABORTED" = OCROutcome.cancelled := by decide

lemma ocrCatch_memory : ocrCatch memoryMsg = OCROutcome.tesseract memoryMsg := by decide

lemma ocrCatch_noText :
    ocrCatch noTextMsg = OCROutcome.generic ("Lỗi xử lý OCR: " ++ noTextMsg) := by decide

lemma ocrExtend_init (env : OCREnv) (n : Nat) (ent : List Nat) :
    ocrExtend env n { fullText := "", failedPages := 0, progress := [], processed := [] } ent =
      { fullText := contribText env ent, failedPages := failsOf env ent,
        progress := ocrProgressOf env n ent, processed := ent } := by
  simp [ocrExtend]

/-- Top-level characterization of `runOCRFromPDF` when the worker is
created successfully: everything is determined by the first stopping
event on the page range `1 .. min(numPdfPages, maxPages)` and by the
pages entered before it. -/
lemma runOCR_char (numPdfPages maxPages bs : Nat) (env : OCREnv) (ca : Option Nat)
    (hbs : 1 ≤ bs) (hcw : env.createErr = none) :
    runOCRFromPDF numPdfPages maxPages bs env ca =
      (let n := Nat.min numPdfPages maxPages
       let ent := ocrEntered env ca (List.range' 1 n)
       match ocrStop env ca (List.range' 1 n) with
       | some OCRFatal.abortedSig =>
         { outcome := .cancelled, fullText := contribText env ent,
           progress := ocrProgressOf env n ent, processed := ent,
           failedPages := failsOf env ent, workerTerminated := true }
       | some OCRFatal.memoryErr =>
         { outcome := .tesseract memoryMsg, fullText := contribText env ent,
           progress := ocrProgressOf env n ent, processed := ent,
           failedPages := failsOf env ent, workerTerminated := true }
       | none =>
         if (jsTrim (contribText env ent)).length = 0 && decide (0 < n) then
           { outcome := .generic ("Lỗi xử lý OCR: " ++ noTextMsg),
             fullText := contribText env ent,
             progress := ocrProgressOf env n ent, processed := ent,
             failedPages := failsOf env ent, workerTerminated := true }
         else
           { outcome := .ok (contribText env ent), fullText := contribText env ent,
             progress := ocrProgressOf env n ent, processed := ent,
             failedPages := failsOf env ent, workerTerminated := true }) := by
  simp only [runOCRFromPDF, hcw]
  rw [ocrBatches_run env ca (Nat.min numPdfPages maxPages) bs hbs]
  rw [ocrPages_eq env ca (Nat.min numPdfPages maxPages) (List.range' 1 (Nat.min numPdfPages maxPages))]
  rw [ocrExtend_init]
  cases hstop : ocrStop env ca (List.range' 1 (Nat.min numPdfPages maxPages)) with
  | none => simp only [ocrCatch_noText]
  | some f =>
    cases f with
    | abortedSig => simp only [ocrCatch_aborted]
    | memoryErr => simp only [ocrCatch_memory]

/-! ## Image preprocessing lemmas -/

/-- The grayscale map of pass 1 on one pixel. -/
def grayPixel (p : Pixel) : Pixel :=
  match p with
  | (r, g, b, a) =>
    (clampRound (lumaQ r g b), clampRound (lumaQ r g b), clampRound (lumaQ r g b), a)

/-- The binarization map of pass 2 on one pixel. -/
def binPixel (thr : ℚ) (p : Pixel) : Pixel :=
  match p with
  | (v, _, _, a) =>
    ((if (v : ℚ) < thr then 0 else 255), (if (v : ℚ) < thr then 0 else 255),
     (if (v : ℚ) < thr then 0 else 255), a)

/-- The total luma accumulated by pass 1. -/
def lumaSum : List Pixel → ℚ
  | [] => 0
  | (r, g, b, _) :: rest => lumaQ r g b + lumaSum rest

lemma pass1_pixelsToData (px : List Pixel) :
    pass1 (pixelsToData px) = (pixelsToData (px.map grayPixel), lumaSum px) := by
  induction px with
  | nil => rfl
  | cons p rest ih =>
    obtain ⟨r, g, b, a⟩ := p
    simp only [pixelsToData, pass1, ih, List.map_cons, grayPixel, lumaSum]

lemma pass2_pixelsToData (thr : ℚ) (px : List Pixel) :
    pass2 thr (pixelsToData px) = pixelsToData (px.map (binPixel thr)) := by
  induction px with
  | nil => rfl
  | cons p rest ih =>
    obtain ⟨v, g, b, a⟩ := p
    simp only [pixelsToData, pass2, ih, List.map_cons, binPixel]

lemma length_pixelsToData (px : List Pixel) :
    (pixelsToData px).length = 4 * px.length := by
  induction px with
  | nil => rfl
  | cons p rest ih =>
    obtain ⟨r, g, b, a⟩ := p
    simp only [pixelsToData, List.length_cons, ih]
    omega

lemma dataAlphas_pixelsToData (px : List Pixel) :
    dataAlphas (pixelsToData px) = px.map (fun p => p.2.2.2) := by
  induction px with
  | nil => rfl
  | cons p rest ih =>
    obtain ⟨r, g, b, a⟩ := p
    simp only [pixelsToData, dataAlphas, ih, List.map_cons]

lemma isBinaryData_pass2 (thr : ℚ) (px : List Pixel) :
    isBinaryData (pixelsToData (px.map (binPixel thr))) = true := by
  induction px with
  | nil => rfl
  | cons p rest ih =>
    obtain ⟨v, g, b, a⟩ := p
    simp only [List.map_cons, binPixel, pixelsToData, isBinaryData, ih]
    split <;> simp

/-- The luma of a true gray pixel `(v, v, v)` is exactly `v`. -/
lemma lumaQ_gray (v : Nat) : lumaQ v v v = (v : ℚ) := by
  unfold lumaQ
  have h : (0.299 : ℚ) * v + (0.587 : ℚ) * v + (0.114 : ℚ) * v =
      ((0.299 : ℚ) + (0.587 : ℚ) + (0.114 : ℚ)) * v := by ring
  rw [h, show (0.299 : ℚ) + (0.587 : ℚ) + (0.114 : ℚ) = 1 by norm_num, one_mul]

/-- Storing an integral byte value through the clamped rounding is the
identity. -/
lemma clampRound_natCast (v : Nat) (h : v ≤ 255) : clampRound (v : ℚ) = v := by
  unfold clampRound
  split
  · next h0 =>
    have : v = 0 := by exact_mod_cast le_antisymm (by exact_mod_cast h0) (Nat.zero_le v)
    omega
  · split
    · next h255 =>
      have : (255 : Nat) ≤ v := by exact_mod_cast h255
      omega
    · next h0 h255 =>
      rw [Int.floor_natCast]
      simp only [sub_self]
      rw [if_pos (by norm_num)]
      exact Int.toNat_natCast v

lemma lumaSum_replicate_gray (n v a : Nat) :
    lumaSum (List.replicate n (v, v, v, a)) = (n : ℚ) * v := by
  induction n with
  | zero => simp [lumaSum]
  | succ m ih =>
    rw [List.replicate_succ]
    show lumaQ v v v + lumaSum (List.replicate m (v, v, v, a)) = _
    rw [ih, lumaQ_gray]
    push_cast
    ring

/-- After preprocessing, every pixel is pure black or pure white. -/
lemma preprocessing_binary (px : List Pixel) :
    isBinaryData ((applyImagePreprocessing (pixelsToData px)).1) = true := by
  simp only [applyImagePreprocessing, pass1_pixelsToData]
  rw [pass2_pixelsToData]
  exact isBinaryData_pass2 _ _

/-- A uniform true-gray raster comes out all white: every stored luma
equals `v`, the threshold is `0.9 * v ≤ v`, and `v < 0.9 * v` fails. -/
lemma preprocessing_uniform_gray (v a n : Nat) (hv : v ≤ 255) :
    (applyImagePreprocessing (pixelsToData (List.replicate n (v, v, v, a)))).1 =
      pixelsToData (List.replicate n (255, 255, 255, a)) := by
  have hgray : grayPixel (v, v, v, a) = (v, v, v, a) := by
    simp only [grayPixel, lumaQ_gray, clampRound_natCast v hv]
  cases n with
  | zero => rfl
  | succ m =>
    simp only [applyImagePreprocessing, pass1_pixelsToData, List.map_replicate, hgray]
    rw [pass2_pixelsToData, List.map_replicate]
    congr 1
    have hth : ¬ ((v : ℚ) <
        lumaSum (List.replicate (m + 1) (v, v, v, a)) /
          (((pixelsToData (List.replicate (m + 1) (v, v, v, a))).length : ℚ) / 4) * 0.9) := by
      rw [lumaSum_replicate_gray, length_pixelsToData, List.length_replicate]
      have hne : ((m + 1 : Nat) : ℚ) ≠ 0 := by positivity
      have hden : ((4 * (m + 1) : Nat) : ℚ) / 4 = ((m + 1 : Nat) : ℚ) := by
        push_cast
        ring
      rw [hden, mul_div_cancel_left₀ _ hne]
      have hle : (v : ℚ) * 0.9 ≤ v :=
        mul_le_of_le_one_right (Nat.cast_nonneg v) (by norm_num)
      push_cast at hle
      nlinarith [hle]
    simp only [binPixel, if_neg hth]

/-- Single-pixel helper: the stored luma of the uniform color `(0,0,1)`
is `0`, the threshold is `0.1026 > 0`, so the pixel classifies black. -/
lemma preprocessing_001_black :
    (applyImagePreprocessing (pixelsToData [(0, 0, 1, 255)])).1 = pixelsToData [(0, 0, 0, 255)] := by
  have hluma : lumaQ 0 0 1 = (0.114 : ℚ) := by
    unfold lumaQ
    norm_num
  have hfl : (⌊(0.114 : ℚ)⌋ : ℤ) = 0 := by
    rw [Int.floor_eq_zero_iff]
    constructor <;> norm_num
  have hcr : clampRound (0.114 : ℚ) = 0 := by
    unfold clampRound
    rw [if_neg (by norm_num), if_neg (by norm_num)]
    simp only [hfl]
    rw [if_pos (by norm_num)]
    rfl
  show (applyImagePreprocessing [0, 0, 1, 255]).1 = [0, 0, 0, 255]
  simp only [applyImagePreprocessing, pass1, hluma, hcr]
  show pass2 ((0.114 + 0) / (((4 : Nat) : ℚ) / 4) * 0.9) [0, 0, 0, 255] = [0, 0, 0, 255]
  have harg : ((0.114 : ℚ) + 0) / (((4 : Nat) : ℚ) / 4) * 0.9 = 0.1026 := by
    norm_num
  rw [harg]
  simp only [pass2]
  rw [if_pos (by norm_num)]

/-- C3 (corrected): the uniform single-color raster `(0,0,1)` — luma
`0.114` — binarizes to pure black, not pure white: pass 1 stores the
rounded luma `0`, while the threshold `0.114 * 0.9 = 0.1026` is computed
from the unrounded average, and `0 < 0.1026` classifies the pixel black.
This refutes the claim that every uniform raster comes out white. -/
theorem C3_uniform_nongray_black_cx :
    (applyImagePreprocessing (pixelsToData [(0, 0, 1, 255)])).1 = pixelsToData [(0, 0, 0, 255)] ∧
    (applyImagePreprocessing (pixelsToData [(0, 0, 1, 255)])).1 ≠
      pixelsToData [(255, 255, 255, 255)] := by
  refine ⟨preprocessing_001_black, ?_⟩
  rw [preprocessing_001_black]
  decide

/-- C3 (amended): after the two-pass preprocessing every pixel's R, G, B
channels are all `0` or all `255`; and a uniform *true-gray* raster
(`r = g = b = v`), where the stored luma is exactly `v` and the threshold
is `0.9 * v ≤ v`, classifies every pixel white. -/
theorem C3_binarization_amended :
    (∀ px : List Pixel, isBinaryData ((applyImagePreprocessing (pixelsToData px)).1) = true) ∧
    (∀ v a n : Nat, v ≤ 255 →
      (applyImagePreprocessing (pixelsToData (List.replicate n (v, v, v, a)))).1 =
        pixelsToData (List.replicate n (255, 255, 255, a))) :=
  ⟨preprocessing_binary, fun v a n hv => preprocessing_uniform_gray v a n hv⟩

/-- Witness for the amended C3 at a concrete raster. -/
theorem C3_binarization_amended_witness :
    isBinaryData ((applyImagePreprocessing (pixelsToData [(3, 7, 11, 9)])).1) = true ∧
    (applyImagePreprocessing (pixelsToData (List.replicate 2 (7, 7, 7, 9)))).1 =
      pixelsToData (List.replicate 2 (255, 255, 255, 9)) :=
  ⟨C3_binarization_amended.1 [(3, 7, 11, 9)], C3_binarization_amended.2 7 9 2 (by decide)⟩

lemma alphas_gray_bin (thr : ℚ) (px : List Pixel) :
    ((px.map grayPixel).map (binPixel thr)).map (fun p => p.2.2.2) =
      px.map (fun p => p.2.2.2) := by
  induction px with
  | nil => rfl
  | cons p rest ih =>
    obtain ⟨r, g, b, a⟩ := p
    simp only [List.map_cons, grayPixel, binPixel, ih]

/-- C9: image preprocessing leaves the alpha channel of every pixel
unchanged — both passes write only the R, G, B bytes, so the fourth byte
of every pixel after `applyImagePreprocessing` equals its value before. -/
theorem C9_alpha_preserved (px : List Pixel) :
    dataAlphas ((applyImagePreprocessing (pixelsToData px)).1) =
      dataAlphas (pixelsToData px) := by
  simp only [applyImagePreprocessing, pass1_pixelsToData]
  rw [pass2_pixelsToData, dataAlphas_pixelsToData, dataAlphas_pixelsToData]
  exact alphas_gray_bin _ px

/-! ## Stopping behaviour on page ranges -/

/-- Without a cancellation signal and without fatal pages, nothing stops
the loop and every page is entered. -/
lemma ocrStop_entered_none (env : OCREnv) (ps : List Nat)
    (h : ∀ p ∈ ps, isFatalPage (env.recognize p) = false) :
    ocrStop env none ps = none ∧ ocrEntered env none ps = ps := by
  induction ps with
  | nil => exact ⟨rfl, rfl⟩
  | cons p rest ih =>
    have hnf := h p (List.mem_cons_self p rest)
    have hsig : sigAt none p = false := rfl
    obtain ⟨ihs, ihe⟩ := ih (fun q hq => h q (List.mem_cons_of_mem p hq))
    exact ⟨by simp [ocrStop, hsig, hnf, ihs], by simp [ocrEntered, hsig, hnf, ihe]⟩

/-- A signal set from page `c` on, observed inside the processed range
and with no earlier fatal page, aborts the run exactly at the boundary of
page `c`: pages `a .. c-1` are entered, page `c` (and everything after)
is not. -/
lemma ocrStop_entered_cancel (env : OCREnv) (c : Nat)
    (h3 : ∀ p, p < c → isFatalPage (env.recognize p) = false) :
    ∀ (m a : Nat), a ≤ c → c < a + m →
      ocrStop env (some c) (List.range' a m) = some OCRFatal.abortedSig ∧
      ocrEntered env (some c) (List.range' a m) = List.range' a (c - a) := by
  intro m
  induction m with
  | zero => intro a h1 h2; exact absurd h2 (by omega)
  | succ k ih =>
    intro a h1 h2
    rw [List.range'_succ]
    by_cases hc : c ≤ a
    · have hsig : sigAt (some c) a = true := by simp [sigAt]; omega
      refine ⟨by simp [ocrStop, hsig], ?_⟩
      simp only [ocrEntered, hsig, if_pos]
      rw [show c - a = 0 by omega]
      rfl
    · have hsig : sigAt (some c) a = false := by simp [sigAt]; omega
      have hnf := h3 a (by omega)
      obtain ⟨ihs, ihe⟩ := ih (a + 1) (by omega) (by omega)
      refine ⟨by simp [ocrStop, hsig, hnf, ihs], ?_⟩
      simp only [ocrEntered, hsig, Bool.false_eq_true, if_false, hnf, ihe]
      rw [show c - a = (c - (a + 1)) + 1 by omega, List.range'_succ]

/-- The entered pages always form a prefix of the attempted page list. -/
lemma ocrEntered_isPre (env : OCREnv) (ca : Option Nat) (ps : List Nat) :
    ocrEntered env ca ps <+: ps := by
  induction ps with
  | nil => simp [ocrEntered]
  | cons p rest ih =>
    by_cases hs : sigAt ca p
    · simp [ocrEntered, hs]
    · by_cases hf : isFatalPage (env.recognize p)
      · simp only [ocrEntered, hs, Bool.false_eq_true, if_false, hf, if_pos]
        exact ⟨rest, rfl⟩
      · simp only [ocrEntered, hs, Bool.false_eq_true, if_false, hf]
        exact (List.cons_prefix_cons).mpr ⟨rfl, ih⟩

/-- If nothing stops the loop, every page of the list is entered. -/
lemma ocrEntered_of_stop_none (env : OCREnv) (ca : Option Nat) :
    ∀ ps, ocrStop env ca ps = none → ocrEntered env ca ps = ps := by
  intro ps
  induction ps with
  | nil => intro _; rfl
  | cons p rest ih =>
    intro h
    by_cases hs : sigAt ca p
    · simp [ocrStop, hs] at h
    · by_cases hf : isFatalPage (env.recognize p)
      · simp [ocrStop, hs, hf] at h
      · simp only [ocrStop, hs, Bool.false_eq_true, if_false, hf] at h
        simp [ocrEntered, hs, hf, ih h]

/-! ## Claim C10 -/

/-- C10: a document handle with zero pages makes `runOCRFromPDF` return
the empty string without raising any error — the `NoTextRecognized`
failure is guarded by `numPages > 0`, so the zero-page edge case yields
empty output (and no progress report). -/
theorem C10_zero_pages (maxPages bs : Nat) (env : OCREnv) (ca : Option Nat)
    (hcw : env.createErr = none) :
    (runOCRFromPDF 0 maxPages bs env ca).outcome = .ok "" ∧
    (runOCRFromPDF 0 maxPages bs env ca).progress = [] := by
  have hn : Nat.min 0 maxPages = 0 := Nat.zero_min maxPages
  have hb : (0 + bs - 1) / bs = 0 := by
    cases bs with
    | zero => rfl
    | succ k => exact Nat.div_eq_of_lt (by omega)
  simp only [runOCRFromPDF, hcw, hn, batchStarts, hb]
  simp [List.range', ocrBatches, jsTrim]

/-- Witness for C10. -/
theorem C10_zero_pages_witness :
    (runOCRFromPDF 0 70 5 { createErr := none, recognize := fun _ => PageOCR.blobFail }
        none).outcome = .ok "" :=
  (C10_zero_pages 70 5 { createErr := none, recognize := fun _ => PageOCR.blobFail }
    none rfl).1

/-! ## Claim C5 -/

/-- C5: a cancellation signal observed at a page or batch boundary `c`
(inside the processed range, with no earlier fatal page) aborts the run
before page `c` is processed, with the distinguished cancelled outcome —
not the generic OCR failure, not a Tesseract error, not success — and the
recognition worker is still terminated on this exit path. -/
theorem C5_cancellation (numPdfPages maxPages bs c : Nat) (env : OCREnv)
    (hcw : env.createErr = none) (hbs : 1 ≤ bs) (hc1 : 1 ≤ c)
    (hc2 : c ≤ Nat.min numPdfPages maxPages)
    (hpre : ∀ p, p < c → isFatalPage (env.recognize p) = false) :
    (runOCRFromPDF numPdfPages maxPages bs env (some c)).outcome = .cancelled ∧
    (runOCRFromPDF numPdfPages maxPages bs env (some c)).processed =
      List.range' 1 (c - 1) ∧
    (runOCRFromPDF numPdfPages maxPages bs env (some c)).workerTerminated = true ∧
    (∀ m, (runOCRFromPDF numPdfPages maxPages bs env (some c)).outcome ≠ .generic m) ∧
    (∀ m, (runOCRFromPDF numPdfPages maxPages bs env (some c)).outcome ≠ .tesseract m) ∧
    (∀ t, (runOCRFromPDF numPdfPages maxPages bs env (some c)).outcome ≠ .ok t) := by
  have hchar := runOCR_char numPdfPages maxPages bs env (some c) hbs hcw
  obtain ⟨hstop, hent⟩ :=
    ocrStop_entered_cancel env c hpre (Nat.min numPdfPages maxPages) 1 hc1 (by omega)
  rw [hchar]
  simp [hstop, hent]

/-- Witness for C5: a three-page document cancelled from page 2 on
processes exactly page 1 and reports the cancelled outcome. -/
theorem C5_cancellation_witness :
    (runOCRFromPDF 3 70 5 { createErr := none, recognize := fun _ => PageOCR.recognized "x" }
        (some 2)).outcome = OCROutcome.cancelled ∧
    (runOCRFromPDF 3 70 5 { createErr := none, recognize := fun _ => PageOCR.recognized "x" }
        (some 2)).processed = [1] ∧
    (runOCRFromPDF 3 70 5 { createErr := none, recognize := fun _ => PageOCR.recognized "x" }
        (some 2)).workerTerminated = true := by
  have h := C5_cancellation 3 70 5 2
    { createErr := none, recognize := fun _ => PageOCR.recognized "x" }
    rfl (by decide) (by decide) (by decide) (fun p _ => rfl)
  exact ⟨h.1, h.2.1, h.2.2.1⟩

/-! ## Claim C6 -/

/-- C6: a run that processes all its pages (no cancellation, no fatal
page error) fails with the `NoTextRecognized` error — surfaced through
the generic `"Lỗi xử lý OCR: "` wrapper of the catch block — exactly when
the accumulated text is empty and at least one page existed; otherwise it
returns the accumulated text, which is the concatenation, in page order,
of the `--- Page p (OCR) ---` blocks of the contributing pages
(`contribText`). -/
theorem C6_ocr_termination (numPdfPages maxPages bs : Nat) (env : OCREnv)
    (hcw : env.createErr = none) (hbs : 1 ≤ bs)
    (hok : ∀ p ∈ List.range' 1 (Nat.min numPdfPages maxPages),
      isFatalPage (env.recognize p) = false) :
    ((jsTrim (contribText env (List.range' 1 (Nat.min numPdfPages maxPages)))).length = 0 →
      0 < Nat.min numPdfPages maxPages →
      (runOCRFromPDF numPdfPages maxPages bs env none).outcome =
        .generic ("Lỗi xử lý OCR: " ++ noTextMsg)) ∧
    (0 < (jsTrim (contribText env (List.range' 1 (Nat.min numPdfPages maxPages)))).length →
      (runOCRFromPDF numPdfPages maxPages bs env none).outcome =
        .ok (contribText env (List.range' 1 (Nat.min numPdfPages maxPages)))) := by
  have hchar := runOCR_char numPdfPages maxPages bs env none hbs hcw
  obtain ⟨hstop, hent⟩ := ocrStop_entered_none env _ hok
  rw [hchar]
  simp only [hstop, hent]
  constructor
  · intro h0 hn
    rw [if_pos (by simp [h0, hn])]
  · intro hpos
    rw [if_neg (by simp; omega)]

/-- Witness for C6: both termination branches at concrete environments —
two blank pages recognize to nothing and fail with the wrapped
`NoTextRecognized` message; two pages recognizing `"x"` return the two
page blocks in order. -/
theorem C6_ocr_termination_witness :
    (runOCRFromPDF 2 70 5 { createErr := none, recognize := fun _ => PageOCR.recognized "" }
        none).outcome = .generic ("Lỗi xử lý OCR: " ++ noTextMsg) ∧
    (runOCRFromPDF 2 70 5 { createErr := none, recognize := fun _ => PageOCR.recognized "x" }
        none).outcome =
      .ok (contribText { createErr := none, recognize := fun _ => PageOCR.recognized "x" }
        (List.range' 1 (Nat.min 2 70))) := by
  constructor
  · exact (C6_ocr_termination 2 70 5
      { createErr := none, recognize := fun _ => PageOCR.recognized "" }
      rfl (by decide) (by decide)).1 (by decide) (by decide)
  · exact (C6_ocr_termination 2 70 5
      { createErr := none, recognize := fun _ => PageOCR.recognized "x" }
      rfl (by decide) (by decide)).2 (by decide)

/-! ## Claim C7 -/

/-- C7: the pages processed by a `runOCRFromPDF` call form a prefix of
`1 .. min(pageCount, maxPages)` — hence they are strictly ascending and
never exceed the cap — the whole range is processed when nothing stops
the run, and the output text is the concatenation of the page-marker
blocks of the processed pages in that same ascending order. -/
theorem C7_page_order (numPdfPages maxPages bs : Nat) (env : OCREnv) (ca : Option Nat)
    (hbs : 1 ≤ bs) :
    (runOCRFromPDF numPdfPages maxPages bs env ca).processed <+:
        List.range' 1 (Nat.min numPdfPages maxPages) ∧
    List.Pairwise (· < ·) (runOCRFromPDF numPdfPages maxPages bs env ca).processed ∧
    (∀ p ∈ (runOCRFromPDF numPdfPages maxPages bs env ca).processed,
        1 ≤ p ∧ p ≤ Nat.min numPdfPages maxPages) ∧
    (env.createErr = none →
      ocrStop env ca (List.range' 1 (Nat.min numPdfPages maxPages)) = none →
      (runOCRFromPDF numPdfPages maxPages bs env ca).processed =
        List.range' 1 (Nat.min numPdfPages maxPages)) ∧
    (runOCRFromPDF numPdfPages maxPages bs env ca).fullText =
      contribText env ((runOCRFromPDF numPdfPages maxPages bs env ca).processed) := by
  cases hcw : env.createErr with
  | some m =>
    have hr : runOCRFromPDF numPdfPages maxPages bs env ca =
        { outcome := ocrCatch m, fullText := "", progress := [], processed := [],
          failedPages := 0, workerTerminated := false } := by
      simp [runOCRFromPDF, hcw]
    rw [hr]
    refine ⟨List.nil_prefix, by simp, by simp, ?_, rfl⟩
    intro h
    exact absurd h (by simp)
  | none =>
    have hchar := runOCR_char numPdfPages maxPages bs env ca hbs hcw
    rw [hchar]
    have hpre := ocrEntered_isPre env ca (List.range' 1 (Nat.min numPdfPages maxPages))
    have hpair : List.Pairwise (· < ·)
        (ocrEntered env ca (List.range' 1 (Nat.min numPdfPages maxPages))) :=
      List.Pairwise.sublist hpre.sublist (List.pairwise_lt_range' 1 _)
    have hmem : ∀ p ∈ ocrEntered env ca (List.range' 1 (Nat.min numPdfPages maxPages)),
        1 ≤ p ∧ p ≤ Nat.min numPdfPages maxPages := by
      intro p hp
      have := List.mem_range'_1.mp (hpre.sublist.subset hp)
      omega
    cases hstop : ocrStop env ca (List.range' 1 (Nat.min numPdfPages maxPages)) with
    | none =>
      have hfull := ocrEntered_of_stop_none env ca _ hstop
      simp only [hstop]
      refine ⟨?_, ?_, ?_, ?_, ?_⟩
      · split <;> exact hpre
      · split <;> exact hpair
      · split <;> exact hmem
      · intros
        split <;> exact hfull
      · split <;> rfl
    | some f =>
      cases f with
      | abortedSig =>
        simp only [hstop]
        refine ⟨hpre, hpair, hmem, ?_, by first | rfl | trivial⟩
        intros
        simp_all
      | memoryErr =>
        simp only [hstop]
        refine ⟨hpre, hpair, hmem, ?_, by first | rfl | trivial⟩
        intros
        simp_all

/-- Witness for C7: a five-page document capped at three pages with the
default batch size processes exactly pages 1, 2, 3 in order. -/
theorem C7_page_order_witness :
    (runOCRFromPDF 5 3 5 { createErr := none, recognize := fun _ => PageOCR.recognized "x" }
        none).processed = List.range' 1 (Nat.min 5 3) := by
  exact (C7_page_order 5 3 5
    { createErr := none, recognize := fun _ => PageOCR.recognized "x" } none
    (by decide)).2.2.2.1 rfl (by decide)

/-! ## Progress monotonicity -/

lemma cast_div_mul_mono (a b n : Nat) (k : ℚ) (hk : 0 ≤ k) (h : a ≤ b) :
    (a : ℚ) / (n : ℚ) * k ≤ (b : ℚ) / (n : ℚ) * k := by
  have h1 : (a : ℚ) / (n : ℚ) * k = (a : ℚ) * (k / (n : ℚ)) := by ring
  have h2 : (b : ℚ) / (n : ℚ) * k = (b : ℚ) * (k / (n : ℚ)) := by ring
  rw [h1, h2]
  exact mul_le_mul_of_nonneg_right (by exact_mod_cast h)
    (div_nonneg hk (Nat.cast_nonneg n))

lemma jsRound_mono {q1 q2 : ℚ} (h : q1 ≤ q2) : jsRound q1 ≤ jsRound q2 :=
  Int.floor_le_floor (by linarith)

lemma ocrProgVal_mono (n : Nat) {p q : Nat} (h : p ≤ q) :
    ocrProgVal n p ≤ ocrProgVal n q :=
  jsRound_mono (cast_div_mul_mono p q n 100 (by norm_num) h)

lemma ocrProgVal_bounds (n p : Nat) (h1 : 1 ≤ p) (h2 : p ≤ n) :
    0 ≤ ocrProgVal n p ∧ ocrProgVal n p ≤ 100 := by
  have hn : (0 : ℚ) < (n : ℚ) := by
    have : 1 ≤ n := le_trans h1 h2
    exact_mod_cast Nat.lt_of_lt_of_le Nat.zero_lt_one this
  constructor
  · have hq : (0 : ℚ) ≤ (p : ℚ) / (n : ℚ) * 100 := by positivity
    have := jsRound_mono hq
    rw [show jsRound 0 = 0 by unfold jsRound; norm_num] at this
    exact this
  · have hq : (p : ℚ) / (n : ℚ) * 100 ≤ 100 := by
      have hd : (p : ℚ) / (n : ℚ) ≤ 1 := (div_le_one hn).mpr (by exact_mod_cast h2)
      calc (p : ℚ) / (n : ℚ) * 100 ≤ 1 * 100 :=
            mul_le_mul_of_nonneg_right hd (by norm_num)
        _ = 100 := by norm_num
    have := jsRound_mono hq
    rw [show jsRound 100 = 100 by unfold jsRound; norm_num] at this
    exact this

/-- Membership in the OCR progress list. -/
lemma mem_ocrProgressOf (env : OCREnv) (n : Nat) (ps : List Nat) (x : Int)
    (hx : x ∈ ocrProgressOf env n ps) : ∃ p ∈ ps, x = ocrProgVal n p := by
  obtain ⟨p, hp, hfp⟩ := List.mem_filterMap.mp hx
  refine ⟨p, hp, ?_⟩
  cases hr : env.recognize p with
  | recognized t => rw [hr] at hfp; exact (Option.some_injective _ hfp).symm
  | blobFail => rw [hr] at hfp; exact absurd hfp (by simp)
  | pageError m => rw [hr] at hfp; exact absurd hfp (by simp)

/-- On a strictly ascending page list within `1 .. n`, the OCR progress
values are monotone and within `0 .. 100`. -/
lemma ocrProgressOf_good (env : OCREnv) (n : Nat) (ps : List Nat)
    (hpair : List.Pairwise (· < ·) ps) (hmem : ∀ p ∈ ps, 1 ≤ p ∧ p ≤ n) :
    List.Chain' (· ≤ ·) (ocrProgressOf env n ps) ∧
    ∀ x ∈ ocrProgressOf env n ps, 0 ≤ x ∧ x ≤ 100 := by
  constructor
  · rw [List.chain'_iff_pairwise]
    rw [ocrProgressOf, List.pairwise_filterMap]
    refine hpair.imp ?_
    intro a b hab x hx y hy
    cases hra : env.recognize a with
    | recognized t =>
      rw [hra] at hx
      cases hrb : env.recognize b with
      | recognized t' =>
        rw [hrb] at hy
        simp only [Option.mem_def, Option.some.injEq] at hx hy
        subst hx; subst hy
        exact ocrProgVal_mono n (Nat.le_of_lt hab)
      | blobFail => rw [hrb] at hy; exact absurd hy (by simp)
      | pageError m => rw [hrb] at hy; exact absurd hy (by simp)
    | blobFail => rw [hra] at hx; exact absurd hx (by simp)
    | pageError m => rw [hra] at hx; exact absurd hx (by simp)
  · intro x hx
    obtain ⟨p, hp, hxv⟩ := mem_ocrProgressOf env n ps x hx
    obtain ⟨h1, h2⟩ := hmem p hp
    rw [hxv]
    exact ocrProgVal_bounds n p h1 h2

/-- The progress list of any `runOCRFromPDF` call (with the batch
structure of the source, `bs ≥ 1`) is monotone non-decreasing with all
values in `0 .. 100`. -/
lemma runOCR_progress_good (numPdfPages maxPages bs : Nat) (env : OCREnv)
    (ca : Option Nat) (hbs : 1 ≤ bs) :
    List.Chain' (· ≤ ·) ((runOCRFromPDF numPdfPages maxPages bs env ca).progress) ∧
    ∀ x ∈ (runOCRFromPDF numPdfPages maxPages bs env ca).progress, 0 ≤ x ∧ x ≤ 100 := by
  cases hcw : env.createErr with
  | some m =>
    have hr : runOCRFromPDF numPdfPages maxPages bs env ca =
        { outcome := ocrCatch m, fullText := "", progress := [], processed := [],
          failedPages := 0, workerTerminated := false } := by
      simp [runOCRFromPDF, hcw]
    rw [hr]
    exact ⟨List.chain'_nil, by simp⟩
  | none =>
    have hchar := runOCR_char numPdfPages maxPages bs env ca hbs hcw
    rw [hchar]
    have hpre := ocrEntered_isPre env ca (List.range' 1 (Nat.min numPdfPages maxPages))
    have hpair : List.Pairwise (· < ·)
        (ocrEntered env ca (List.range' 1 (Nat.min numPdfPages maxPages))) :=
      List.Pairwise.sublist hpre.sublist (List.pairwise_lt_range' 1 _)
    have hmem : ∀ p ∈ ocrEntered env ca (List.range' 1 (Nat.min numPdfPages maxPages)),
        1 ≤ p ∧ p ≤ Nat.min numPdfPages maxPages := by
      intro p hp
      have := List.mem_range'_1.mp (hpre.sublist.subset hp)
      omega
    have hg := ocrProgressOf_good env (Nat.min numPdfPages maxPages) _ hpair hmem
    cases hstop : ocrStop env ca (List.range' 1 (Nat.min numPdfPages maxPages)) with
    | none =>
      simp only [hstop]
      constructor
      · split <;> exact hg.1
      · split <;> exact hg.2
    | some f =>
      cases f with
      | abortedSig => simp only [hstop]; exact hg
      | memoryErr => simp only [hstop]; exact hg

/-- Characterization of membership in the extraction progress list. -/
lemma mem_progressFrom (n : Nat) :
    ∀ (ps : List PageFetch) (i : Nat) (x : Int), x ∈ progressFrom n i ps →
      ∃ j, i ≤ j ∧ j < i + ps.length ∧ x = 20 + ⌊((j : ℚ) / (n : ℚ)) * 80⌋ := by
  intro ps
  induction ps with
  | nil => intro i x hx; exact absurd hx (by simp [progressFrom])
  | cons pf rest ih =>
    intro i x hx
    match pf with
    | .pageError =>
      obtain ⟨j, hj1, hj2, hj3⟩ := ih (i + 1) x hx
      exact ⟨j, by omega, by simp only [List.length_cons]; omega, hj3⟩
    | .ok items =>
      rw [show progressFrom n i (PageFetch.ok items :: rest) =
          (20 + ⌊((i : ℚ) / (n : ℚ)) * 80⌋) :: progressFrom n (i + 1) rest from rfl] at hx
      rcases List.mem_cons.mp hx with h | h
      · exact ⟨i, le_refl i, by simp, h⟩
      · obtain ⟨j, hj1, hj2, hj3⟩ := ih (i + 1) x h
        exact ⟨j, by omega, by simp only [List.length_cons]; omega, hj3⟩
    | .timeout =>
      rw [show progressFrom n i (PageFetch.timeout :: rest) =
          (20 + ⌊((i : ℚ) / (n : ℚ)) * 80⌋) :: progressFrom n (i + 1) rest from rfl] at hx
      rcases List.mem_cons.mp hx with h | h
      · exact ⟨i, le_refl i, by simp, h⟩
      · obtain ⟨j, hj1, hj2, hj3⟩ := ih (i + 1) x h
        exact ⟨j, by omega, by simp only [List.length_cons]; omega, hj3⟩

/-- Every extraction progress value is at least 20. -/
lemma progressFrom_lb (n : Nat) (ps : List PageFetch) (i : Nat) (x : Int)
    (hx : x ∈ progressFrom n i ps) : 20 ≤ x := by
  obtain ⟨j, _, _, hj⟩ := mem_progressFrom n ps i x hx
  have h0 : (0 : ℤ) ≤ ⌊((j : ℚ) / (n : ℚ)) * 80⌋ := by
    apply Int.floor_nonneg.mpr
    positivity
  omega

/-- Extraction progress values within the page range stay at most 100. -/
lemma progressFrom_ub (n : Nat) (ps : List PageFetch) (i : Nat) (hi : 1 ≤ i)
    (hn : i + ps.length ≤ n + 1) (x : Int) (hx : x ∈ progressFrom n i ps) :
    x ≤ 100 := by
  obtain ⟨j, hj1, hj2, hj3⟩ := mem_progressFrom n ps i x hx
  have hjn : j ≤ n := by omega
  have hn1 : (0 : ℚ) < (n : ℚ) := by
    have : 1 ≤ n := by omega
    exact_mod_cast Nat.lt_of_lt_of_le Nat.zero_lt_one this
  have hq : ((j : ℚ) / (n : ℚ)) * 80 ≤ 80 := by
    have hd : (j : ℚ) / (n : ℚ) ≤ 1 := (div_le_one hn1).mpr (by exact_mod_cast hjn)
    calc ((j : ℚ) / (n : ℚ)) * 80 ≤ 1 * 80 :=
          mul_le_mul_of_nonneg_right hd (by norm_num)
      _ = 80 := by norm_num
  have hf : (⌊((j : ℚ) / (n : ℚ)) * 80⌋ : ℤ) ≤ 80 := by
    have := Int.floor_le_floor hq
    rw [show (⌊(80 : ℚ)⌋ : ℤ) = 80 by norm_num] at this
    exact this
  omega

/-- The extraction progress values are monotone non-decreasing. -/
lemma progressFrom_chain (n : Nat) :
    ∀ (ps : List PageFetch) (i : Nat), List.Chain' (· ≤ ·) (progressFrom n i ps) := by
  intro ps
  induction ps with
  | nil => intro i; simp [progressFrom]
  | cons pf rest ih =>
    intro i
    have hhead : ∀ y ∈ (progressFrom n (i + 1) rest).head?,
        20 + ⌊((i : ℚ) / (n : ℚ)) * 80⌋ ≤ y := by
      intro y hy
      obtain ⟨j, hj1, _, hj3⟩ := mem_progressFrom n rest (i + 1) y
        (List.mem_of_mem_head? hy)
      have hmono := Int.floor_le_floor (cast_div_mul_mono i j n 80 (by norm_num) (by omega))
      omega
    match pf with
    | .pageError =>
      rw [show progressFrom n i (PageFetch.pageError :: rest) =
          progressFrom n (i + 1) rest from rfl]
      exact ih (i + 1)
    | .ok items =>
      rw [show progressFrom n i (PageFetch.ok items :: rest) =
          (20 + ⌊((i : ℚ) / (n : ℚ)) * 80⌋) :: progressFrom n (i + 1) rest from rfl]
      exact List.chain'_cons'.mpr ⟨hhead, ih (i + 1)⟩
    | .timeout =>
      rw [show progressFrom n i (PageFetch.timeout :: rest) =
          (20 + ⌊((i : ℚ) / (n : ℚ)) * 80⌋) :: progressFrom n (i + 1) rest from rfl]
      exact List.chain'_cons'.mpr ⟨hhead, ih (i + 1)⟩

/-- Without OCR, the progress an `extractTextFromPDF` call reports is the
loading-phase values followed by the per-page values. -/
lemma extract_progress_noOCR (doc : PDFDoc) (events : List (Nat × Nat)) (env : OCREnv) :
    (extractTextFromPDF doc false events env).progress =
      loadProgress events ++ progressFrom doc.pages.length 1 doc.pages := by
  rw [extractTextFromPDF]
  by_cases h0 : doc.pages.length = 0
  · rw [if_pos h0]
    have : doc.pages = [] := List.length_eq_zero.mp h0
    simp [this, progressFrom]
  · rw [if_neg h0]
    simp only [extractLoop_eq]
    split
    · split
      · rfl
      · rfl
    · rfl

/-- Membership in the loading progress list. -/
lemma mem_loadProgress (events : List (Nat × Nat)) (x : Int)
    (hx : x ∈ loadProgress events) :
    ∃ e ∈ events, 0 < e.2 ∧ x = jsRound ((e.1 : ℚ) / (e.2 : ℚ) * 20) := by
  obtain ⟨e, he, hfe⟩ := List.mem_filterMap.mp hx
  by_cases ht : 0 < e.2
  · rw [if_pos ht] at hfe
    exact ⟨e, he, ht, (Option.some_injective _ hfe).symm⟩
  · rw [if_neg ht] at hfe
    exact absurd hfe (by simp)

/-- Loading progress values lie in `0 .. 20` when `loaded ≤ total`. -/
lemma loadProgress_bounds (events : List (Nat × Nat))
    (hE : ∀ e ∈ events, 0 < e.2 ∧ e.1 ≤ e.2) (x : Int) (hx : x ∈ loadProgress events) :
    0 ≤ x ∧ x ≤ 20 := by
  obtain ⟨e, he, ht, hxv⟩ := mem_loadProgress events x hx
  obtain ⟨_, hle⟩ := hE e he
  have htq : (0 : ℚ) < (e.2 : ℚ) := by exact_mod_cast ht
  constructor
  · rw [hxv]
    have hq : (0 : ℚ) ≤ (e.1 : ℚ) / (e.2 : ℚ) * 20 := by positivity
    have := jsRound_mono hq
    rw [show jsRound 0 = 0 by unfold jsRound; norm_num] at this
    exact this
  · rw [hxv]
    have hq : (e.1 : ℚ) / (e.2 : ℚ) * 20 ≤ 20 := by
      have hd : (e.1 : ℚ) / (e.2 : ℚ) ≤ 1 := (div_le_one htq).mpr (by exact_mod_cast hle)
      calc (e.1 : ℚ) / (e.2 : ℚ) * 20 ≤ 1 * 20 :=
            mul_le_mul_of_nonneg_right hd (by norm_num)
        _ = 20 := by norm_num
    have := jsRound_mono hq
    rw [show jsRound 20 = 20 by unfold jsRound; norm_num] at this
    exact this

/-- The loading progress values are monotone when the reported
`loaded / total` ratios are. -/
lemma loadProgress_pairwise (events : List (Nat × Nat))
    (hP : List.Pairwise (fun a b => (a.1 : ℚ) / (a.2 : ℚ) ≤ (b.1 : ℚ) / (b.2 : ℚ)) events) :
    List.Pairwise (· ≤ ·) (loadProgress events) := by
  rw [loadProgress, List.pairwise_filterMap]
  refine hP.imp ?_
  intro a b hab x hx y hy
  by_cases hta : 0 < a.2
  · rw [if_pos hta] at hx
    by_cases htb : 0 < b.2
    · rw [if_pos htb] at hy
      simp only [Option.mem_def, Option.some.injEq] at hx hy
      subst hx; subst hy
      exact jsRound_mono (mul_le_mul_of_nonneg_right hab (by norm_num))
    · rw [if_neg htb] at hy; exact absurd hy (by simp)
  · rw [if_neg hta] at hx; exact absurd hx (by simp)

/-! ## Claim C4 -/

/-- C4 (amended): within a single `runOCRFromPDF` call, and within an
`extractTextFromPDF` call that does not proceed into OCR, the progress
values are integers in `0 .. 100` and monotone non-decreasing (the
loading phase under the library's guarantee that `loaded / total` never
decreases).  An extract call that proceeds into OCR restarts progress
from the OCR scale instead (see the counterexample). -/
theorem C4_progress_monotone_amended :
    (∀ (numPdfPages maxPages bs : Nat) (env : OCREnv) (ca : Option Nat), 1 ≤ bs →
      List.Chain' (· ≤ ·) ((runOCRFromPDF numPdfPages maxPages bs env ca).progress) ∧
      ∀ x ∈ (runOCRFromPDF numPdfPages maxPages bs env ca).progress, 0 ≤ x ∧ x ≤ 100) ∧
    (∀ (doc : PDFDoc) (events : List (Nat × Nat)) (env : OCREnv),
      (∀ e ∈ events, 0 < e.2 ∧ e.1 ≤ e.2) →
      List.Pairwise (fun a b => (a.1 : ℚ) / (a.2 : ℚ) ≤ (b.1 : ℚ) / (b.2 : ℚ)) events →
      List.Chain' (· ≤ ·) ((extractTextFromPDF doc false events env).progress) ∧
      ∀ x ∈ (extractTextFromPDF doc false events env).progress, 0 ≤ x ∧ x ≤ 100) := by
  constructor
  · intro numPdfPages maxPages bs env ca hbs
    exact runOCR_progress_good numPdfPages maxPages bs env ca hbs
  · intro doc events env hE hP
    rw [extract_progress_noOCR]
    have hl1 : List.Chain' (· ≤ ·) (loadProgress events) :=
      List.chain'_iff_pairwise.mpr (loadProgress_pairwise events hP)
    have hl2 : List.Chain' (· ≤ ·) (progressFrom doc.pages.length 1 doc.pages) :=
      progressFrom_chain doc.pages.length doc.pages 1
    constructor
    · rw [List.chain'_append]
      refine ⟨hl1, hl2, ?_⟩
      intro x hx y hy
      have hx20 : x ≤ 20 :=
        (loadProgress_bounds events hE x (List.mem_of_mem_getLast? hx)).2
      have hy20 : 20 ≤ y :=
        progressFrom_lb doc.pages.length doc.pages 1 y (List.mem_of_mem_head? hy)
      omega
    · intro x hx
      rcases List.mem_append.mp hx with h | h
      · have := loadProgress_bounds events hE x h
        omega
      · have h1 := progressFrom_lb doc.pages.length doc.pages 1 x h
        have h2 := progressFrom_ub doc.pages.length doc.pages 1 (le_refl 1)
          (by omega) x h
        omega

/-- Witness for the amended C4 at concrete runs. -/
theorem C4_progress_monotone_amended_witness :
    List.Chain' (· ≤ ·)
      ((runOCRFromPDF 2 70 5 { createErr := none, recognize := fun _ => PageOCR.recognized "x" }
        none).progress) ∧
    List.Chain' (· ≤ ·)
      ((extractTextFromPDF ⟨[PageFetch.ok [], PageFetch.ok []]⟩ false []
        { createErr := none, recognize := fun _ => PageOCR.recognized "x" }).progress) := by
  constructor
  · exact (C4_progress_monotone_amended.1 2 70 5
      { createErr := none, recognize := fun _ => PageOCR.recognized "x" } none (by decide)).1
  · exact (C4_progress_monotone_amended.2 ⟨[PageFetch.ok [], PageFetch.ok []]⟩ []
      { createErr := none, recognize := fun _ => PageOCR.recognized "x" }
      (by simp) (by simp)).1

/-- C4 (corrected): a two-page scanned document with OCR enabled reports
page-loop progress `60, 100` and then, entering OCR within the same
`extract` call with the same callback, restarts at `50` before reaching
`100` again — the combined sequence `60, 100, 50, 100` is not monotone
non-decreasing, refuting the claim for an extract call that proceeds into
OCR. -/
theorem C4_progress_reset_cx :
    (extractTextFromPDF ⟨[PageFetch.ok [], PageFetch.ok []]⟩ true []
      { createErr := none, recognize := fun _ => PageOCR.recognized "x" }).progress =
      [60, 100, 50, 100] ∧
    ¬ List.Chain' (· ≤ ·)
      ((extractTextFromPDF ⟨[PageFetch.ok [], PageFetch.ok []]⟩ true []
        { createErr := none, recognize := fun _ => PageOCR.recognized "x" }).progress) := by
  have hstop' : ocrStop { createErr := none, recognize := fun _ => PageOCR.recognized "x" }
      none [1, 2] = none := by decide
  have hent' : ocrEntered { createErr := none, recognize := fun _ => PageOCR.recognized "x" }
      none [1, 2] = [1, 2] := by decide
  have hchar := runOCR_char 2 70 5
    { createErr := none, recognize := fun _ => PageOCR.recognized "x" } none (by decide) rfl
  have hmin : Nat.min 2 70 = 2 := by decide
  have hrange : List.range' 1 2 = [1, 2] := by decide
  simp only [hmin, hrange, hstop', hent'] at hchar
  rw [if_neg (by decide)] at hchar
  have hb : blocksFrom 1 [PageFetch.ok [], PageFetch.ok []] = "" := by decide
  have hi : itemsFrom [PageFetch.ok [], PageFetch.ok []] = 0 := by decide
  have hex : (extractTextFromPDF ⟨[PageFetch.ok [], PageFetch.ok []]⟩ true []
      { createErr := none, recognize := fun _ => PageOCR.recognized "x" }).progress =
      ([] ++ progressFrom 2 1 [PageFetch.ok [], PageFetch.ok []]) ++
        ocrProgressOf { createErr := none, recognize := fun _ => PageOCR.recognized "x" }
          2 [1, 2] := by
    rw [extractTextFromPDF]
    rw [if_neg (by decide : ¬ ([PageFetch.ok [], PageFetch.ok []] : List PageFetch).length = 0)]
    simp only [extractLoop_eq, hb, hi, loadProgress, List.filterMap_nil]
    rw [if_pos (by decide : (jsTrim "").length < 100)]
    rw [if_pos (by decide : (0 : Nat) < 10)]
    simp only [List.length_cons, List.length_nil, hchar]
    norm_num
  have hval : ([] ++ progressFrom 2 1 [PageFetch.ok [], PageFetch.ok []]) ++
      ocrProgressOf { createErr := none, recognize := fun _ => PageOCR.recognized "x" }
        2 [1, 2] = ([60, 100, 50, 100] : List Int) := by
    show ([] ++ [20 + ⌊((1 : ℚ) / (2 : ℚ)) * 80⌋, 20 + ⌊((2 : ℚ) / (2 : ℚ)) * 80⌋]) ++
        [jsRound ((1 : ℚ) / (2 : ℚ) * 100), jsRound ((2 : ℚ) / (2 : ℚ) * 100)] = _
    unfold jsRound
    norm_num
  rw [hex, hval]
  exact ⟨rfl, by norm_num [List.chain'_cons]⟩

/-! ## Outcome characterization of the extractor -/

/-- The outcome of `extractTextFromPDF` on a nonempty document, by the
two density thresholds (`MIN_CHARS_TOTAL = 100`, `MIN_ITEMS_TOTAL = 10`). -/
lemma extract_outcome_cases (doc : PDFDoc) (enableOCR : Bool)
    (events : List (Nat × Nat)) (env : OCREnv) (hne : doc.pages ≠ []) :
    (100 ≤ (jsTrim (blocksFrom 1 doc.pages)).length →
      (extractTextFromPDF doc enableOCR events env).outcome =
        .text (blocksFrom 1 doc.pages) doc) ∧
    ((jsTrim (blocksFrom 1 doc.pages)).length < 100 → 10 ≤ itemsFrom doc.pages →
      (extractTextFromPDF doc enableOCR events env).outcome = .encodingFailure) ∧
    ((jsTrim (blocksFrom 1 doc.pages)).length < 100 → itemsFrom doc.pages < 10 →
      enableOCR = false →
      (extractTextFromPDF doc enableOCR events env).outcome = .scanned doc) ∧
    ((jsTrim (blocksFrom 1 doc.pages)).length < 100 → itemsFrom doc.pages < 10 →
      enableOCR = true →
      (∃ t, (extractTextFromPDF doc enableOCR events env).outcome = .text t doc) ∨
      (∃ m, (extractTextFromPDF doc enableOCR events env).outcome = .ocrFailed m)) := by
  have hlen0 : ¬ doc.pages.length = 0 := fun h => hne (List.length_eq_zero.mp h)
  simp only [extractTextFromPDF, extractLoop_eq, if_neg hlen0]
  refine ⟨?_, ?_, ?_, ?_⟩
  · intro h100
    rw [if_neg (by omega)]
  · intro hlow hitems
    rw [if_pos hlow, if_neg (by omega)]
  · intro hlow hfew hocr
    subst hocr
    rw [if_pos hlow, if_pos hfew]
    rfl
  · intro hlow hfew hocr
    subst hocr
    rw [if_pos hlow, if_pos hfew]
    simp only [if_pos rfl]
    cases (runOCRFromPDF doc.pages.length 70 5 env none).outcome with
    | ok t => exact Or.inl ⟨t, rfl⟩
    | cancelled => exact Or.inr ⟨_, rfl⟩
    | tesseract m => exact Or.inr ⟨_, rfl⟩
    | generic m => exact Or.inr ⟨_, rfl⟩

/-! ## Blank documents: white space collapses to nothing -/

/-- JavaScript white space is never a `\w` word character. -/
lemma isJsWs_not_word (c : Char) (h : isJsWs c = true) : isWordChar c = false := by
  simp only [isJsWs, Bool.or_eq_true, decide_eq_true_eq, Bool.and_eq_true] at h
  simp only [isWordChar, Bool.or_eq_true, decide_eq_true_eq, Bool.and_eq_true,
    Bool.or_eq_false_iff, Bool.and_eq_false_iff, decide_eq_false_iff_not]
  omega

/-- A string trims to nothing exactly when all its characters are
JavaScript white space. -/
lemma jsTrim_empty_iff (s : String) :
    (jsTrim s).length = 0 ↔ ∀ c ∈ s.data, isJsWs c = true := by
  show (((s.data.dropWhile isJsWs).reverse.dropWhile isJsWs).reverse).length = 0 ↔ _
  rw [List.length_eq_zero, List.reverse_eq_nil_iff, List.dropWhile_eq_nil_iff]
  constructor
  · intro h c hc
    have hsplit := List.takeWhile_append_dropWhile (p := isJsWs) (l := s.data)
    rw [← hsplit] at hc
    rcases List.mem_append.mp hc with h1 | h1
    · exact List.mem_takeWhile_imp h1
    · exact h c (List.mem_reverse.mpr h1)
  · intro h c hc
    exact h c ((List.dropWhile_sublist isJsWs).subset (List.mem_reverse.mp hc))

/-- A string all of whose characters are white space trims to `""`. -/
lemma jsTrim_eq_empty (s : String) (h : ∀ c ∈ s.data, isJsWs c = true) :
    jsTrim s = "" := by
  have hl := (jsTrim_empty_iff s).mpr h
  have hd : (jsTrim s).data = [] := List.length_eq_zero.mp hl
  exact String.ext hd

/-- Collapsing white space preserves all-white-space character lists. -/
lemma collapseWs_ws (b : Bool) (l : List Char) (h : ∀ c ∈ l, isJsWs c = true) :
    ∀ c ∈ collapseWsAux b l, isJsWs c = true := by
  induction l generalizing b with
  | nil => intro c hc; exact absurd hc (by simp [collapseWsAux])
  | cons d rest ih =>
    intro c hc
    have hd := h d (List.mem_cons_self d rest)
    have hrest : ∀ c ∈ rest, isJsWs c = true :=
      fun x hx => h x (List.mem_cons_of_mem d hx)
    rw [collapseWsAux] at hc
    split at hc
    · split at hc
      · exact ih true hrest c hc
      · rcases List.mem_cons.mp hc with h1 | h1
        · rw [h1]; rfl
        · exact ih true hrest c h1
    · rcases List.mem_cons.mp hc with h1 | h1
      · rw [h1]; exact hd
      · exact ih false hrest c h1

/-- Tokenizing a word-free character list gives only single characters. -/
lemma tokenize_no_word (l : List Char) (h : ∀ c ∈ l, isWordChar c = false) :
    tokenize l = l.map Tok.ch := by
  induction l with
  | nil => rfl
  | cons c rest ih =>
    have hc := h c (List.mem_cons_self c rest)
    have hrest : ∀ x ∈ rest, isWordChar x = false :=
      fun x hx => h x (List.mem_cons_of_mem c hx)
    show pushTok c (tokenize rest) = Tok.ch c :: rest.map Tok.ch
    rw [ih hrest]
    cases rest with
    | nil =>
      show (if isWordChar c then Tok.word [c] :: [] else Tok.ch c :: []) = _
      rw [hc]
      rfl
    | cons d ds =>
      show (if isWordChar c then Tok.word [c] :: (d :: ds).map Tok.ch
            else Tok.ch c :: (d :: ds).map Tok.ch) = _
      rw [hc]
      rfl

/-- De-hyphenation is the identity on a stream of single characters. -/
lemma dehyphenTok_all_ch (l : List Char) : dehyphenTok (l.map Tok.ch) = l := by
  induction l with
  | nil => rfl
  | cons c rest ih =>
    rw [List.map_cons, show dehyphenTok (Tok.ch c :: rest.map Tok.ch) =
        c :: dehyphenTok (rest.map Tok.ch) from rfl, ih]

/-- `cleanText` of an all-white-space string is empty. -/
lemma cleanText_all_ws (s : String) (h : ∀ c ∈ s.data, isJsWs c = true) :
    cleanText s = "" := by
  rw [cleanText]
  split
  · rfl
  · have hfil : ∀ c ∈ s.data.filter (fun c => !isStrippedCtl c), isJsWs c = true :=
      fun c hc => h c (List.mem_of_mem_filter hc)
    have hcoll := collapseWs_ws false _ hfil
    have hnw : ∀ c ∈ collapseWsAux false (s.data.filter (fun c => !isStrippedCtl c)),
        isWordChar c = false := fun c hc => isJsWs_not_word c (hcoll c hc)
    rw [show nfkc (s.data.filter (fun c => !isStrippedCtl c)) =
        s.data.filter (fun c => !isStrippedCtl c) from rfl]
    rw [dehyphen, tokenize_no_word _ hnw, dehyphenTok_all_ch]
    exact jsTrim_eq_empty _ hcoll

/-- The raw page text of a page whose items are all blank consists of
white space only. -/
lemma pageText_all_ws (items : List TextItem)
    (h : ∀ it ∈ items, (jsTrim it.str).length = 0) :
    ∀ c ∈ (pageTextOf items).data, isJsWs c = true := by
  induction items with
  | nil =>
    intro c hc
    rw [show (pageTextOf []).data = [] from rfl] at hc
    exact absurd hc (List.not_mem_nil c)
  | cons it rest ih =>
    intro c hc
    have hit : ∀ x ∈ it.str.data, isJsWs x = true :=
      (jsTrim_empty_iff it.str).mp (h it (List.mem_cons_self it rest))
    have hrest := ih (fun x hx => h x (List.mem_cons_of_mem it hx))
    rw [show pageTextOf (it :: rest) =
        (it.str ++ (if it.hasEOL then "\n" else " ")) ++ pageTextOf rest from rfl,
      String.data_append, String.data_append] at hc
    rcases List.mem_append.mp hc with h1 | h1
    · rcases List.mem_append.mp h1 with h2 | h2
      · exact hit c h2
      · split at h2
        · rw [show ("\n" : String).data = ['\n'] from rfl] at h2
          rw [List.mem_singleton.mp h2]
          rfl
        · rw [show (" " : String).data = [' '] from rfl] at h2
          rw [List.mem_singleton.mp h2]
          rfl
    · exact hrest c h1

/-- A page of blank items contributes no meaningful items. -/
lemma meaningfulCount_blank (items : List TextItem)
    (h : ∀ it ∈ items, (jsTrim it.str).length = 0) :
    meaningfulCount items = 0 := by
  rw [meaningfulCount, List.length_eq_zero, List.filter_eq_nil_iff]
  intro it hit
  simp [h it hit]

/-- A document whose items are all blank builds an empty `fullText`. -/
lemma blocksFrom_blank (pages : List PageFetch)
    (h : ∀ pf ∈ pages, ∀ it ∈ pageItemsOf pf, (jsTrim it.str).length = 0) :
    ∀ i, blocksFrom i pages = "" := by
  induction pages with
  | nil => intro i; rfl
  | cons pf rest ih =>
    intro i
    rw [blocksFrom, ih (fun pf' h' => h pf' (List.mem_cons_of_mem pf h'))]
    have hpb : pageBlock i pf = "" := by
      match pf with
      | .pageError => rfl
      | .ok items =>
        have hcl : cleanText (pageTextOf items) = "" :=
          cleanText_all_ws _ (pageText_all_ws items
            (h (PageFetch.ok items) (List.mem_cons_self (PageFetch.ok items) rest)))
        show (if 0 < (cleanText (pageTextOf items)).length
              then pageMarkerBlock i (cleanText (pageTextOf items)) else "") = ""
        rw [hcl]
        rfl
      | .timeout => rfl
    rw [hpb]
    rfl

/-- A document whose items are all blank has zero meaningful items. -/
lemma itemsFrom_blank (pages : List PageFetch)
    (h : ∀ pf ∈ pages, ∀ it ∈ pageItemsOf pf, (jsTrim it.str).length = 0) :
    itemsFrom pages = 0 := by
  induction pages with
  | nil => rfl
  | cons pf rest ih =>
    rw [itemsFrom, meaningfulCount_blank _ (h pf (List.mem_cons_self pf rest)),
      ih (fun pf' h' => h pf' (List.mem_cons_of_mem pf h'))]

/-! ## Claim C1 -/

/-- C1: when the cleaned text stays below the character floor (100), the
meaningful-item count decides the classification.  Below the item floor
(10) the outcome is never `EncodingFailure` — without OCR it is exactly
the `ScannedDetected` signal carrying the still-open document handle;
at or above the item floor it is exactly `EncodingFailure` and never the
scanned signal.  And a document with zero meaningful (non-blank) text
runs on every page yields `ScannedDetected`. -/
theorem C1_scanned_vs_encoding (doc : PDFDoc) (enableOCR : Bool)
    (events : List (Nat × Nat)) (env : OCREnv) (hne : doc.pages ≠ []) :
    ((jsTrim (blocksFrom 1 doc.pages)).length < 100 → itemsFrom doc.pages < 10 →
      (extractTextFromPDF doc enableOCR events env).outcome ≠ .encodingFailure ∧
      (enableOCR = false →
        (extractTextFromPDF doc enableOCR events env).outcome = .scanned doc)) ∧
    ((jsTrim (blocksFrom 1 doc.pages)).length < 100 → 10 ≤ itemsFrom doc.pages →
      (extractTextFromPDF doc enableOCR events env).outcome = .encodingFailure ∧
      ∀ d, (extractTextFromPDF doc enableOCR events env).outcome ≠ .scanned d) ∧
    ((∀ pf ∈ doc.pages, ∀ it ∈ pageItemsOf pf, (jsTrim it.str).length = 0) →
      (extractTextFromPDF doc false events env).outcome = .scanned doc) := by
  refine ⟨?_, ?_, ?_⟩
  · intro hlow hfew
    constructor
    · cases hoc : enableOCR with
      | false =>
        obtain ⟨_, _, hScan', _⟩ := extract_outcome_cases doc false events env hne
        rw [hScan' hlow hfew rfl]
        simp
      | true =>
        obtain ⟨_, _, _, hOCR'⟩ := extract_outcome_cases doc true events env hne
        rcases hOCR' hlow hfew rfl with ⟨t, ht⟩ | ⟨m, hm⟩
        · rw [ht]; simp
        · rw [hm]; simp
    · intro hoc
      subst hoc
      obtain ⟨_, _, hScan', _⟩ := extract_outcome_cases doc false events env hne
      exact hScan' hlow hfew rfl
  · intro hlow hmany
    obtain ⟨_, hEnc, _, _⟩ := extract_outcome_cases doc enableOCR events env hne
    refine ⟨hEnc hlow hmany, ?_⟩
    intro d
    rw [hEnc hlow hmany]
    simp
  · intro hblank
    obtain ⟨_, _, hScan', _⟩ := extract_outcome_cases doc false events env hne
    have hb := blocksFrom_blank doc.pages hblank 1
    have hi := itemsFrom_blank doc.pages hblank
    exact hScan' (by rw [hb]; decide) (by omega) rfl

/-- Witness for C1: a one-page document with an empty item list yields
the scanned signal; one page with ten non-blank two-letter runs whose
cleaned text stays below 100 characters yields the encoding failure. -/
theorem C1_scanned_vs_encoding_witness :
    (extractTextFromPDF ⟨[PageFetch.ok []]⟩ false []
      { createErr := none, recognize := fun _ => PageOCR.blobFail }).outcome =
      .scanned ⟨[PageFetch.ok []]⟩ ∧
    (extractTextFromPDF ⟨[PageFetch.ok (List.replicate 10 ⟨"ab", false⟩)]⟩ false []
      { createErr := none, recognize := fun _ => PageOCR.blobFail }).outcome =
      .encodingFailure := by
  constructor
  · exact (C1_scanned_vs_encoding ⟨[PageFetch.ok []]⟩ false []
      { createErr := none, recognize := fun _ => PageOCR.blobFail }
      (by decide)).2.2 (by decide)
  · exact ((C1_scanned_vs_encoding ⟨[PageFetch.ok (List.replicate 10 ⟨"ab", false⟩)]⟩ false []
      { createErr := none, recognize := fun _ => PageOCR.blobFail }
      (by decide)).2.1 (by decide) (by decide)).1

/-! ## Claim C2 -/

/-- C2 (counterexample): a document whose meaningful-run count meets the
item floor (ten runs `"ab"`) but whose cleaned text stays below the
character floor does NOT return `Text` — it raises the encoding failure.
This refutes the AND/OR reading under which meeting the item floor alone
suffices for a `Text` result. -/
theorem C2_item_floor_not_text_cx :
    itemsFrom [PageFetch.ok (List.replicate 10 ⟨"ab", false⟩)] = 10 ∧
    (jsTrim (blocksFrom 1 [PageFetch.ok (List.replicate 10 ⟨"ab", false⟩)])).length < 100 ∧
    (extractTextFromPDF ⟨[PageFetch.ok (List.replicate 10 ⟨"ab", false⟩)]⟩ false []
      { createErr := none, recognize := fun _ => PageOCR.blobFail }).outcome =
      .encodingFailure ∧
    ((extractTextFromPDF ⟨[PageFetch.ok (List.replicate 10 ⟨"ab", false⟩)]⟩ false []
      { createErr := none, recognize := fun _ => PageOCR.blobFail }).outcome).isText =
      false := by
  decide

/-- C2 (amended): after all pages are processed, `Text` is returned
exactly when the total cleaned text length meets the character floor
(100); the item floor does not rescue a below-floor document — with the
item floor met but the character floor missed, the outcome is
`EncodingFailure`, not `Text`.  The `Text` content is the concatenation
of the per-page marker blocks. -/
theorem C2_text_iff_char_floor (doc : PDFDoc) (enableOCR : Bool)
    (events : List (Nat × Nat)) (env : OCREnv) (hne : doc.pages ≠ []) :
    (100 ≤ (jsTrim (blocksFrom 1 doc.pages)).length →
      (extractTextFromPDF doc enableOCR events env).outcome =
        .text (blocksFrom 1 doc.pages) doc) ∧
    ((jsTrim (blocksFrom 1 doc.pages)).length < 100 → 10 ≤ itemsFrom doc.pages →
      (extractTextFromPDF doc enableOCR events env).outcome = .encodingFailure ∧
      ((extractTextFromPDF doc enableOCR events env).outcome).isText = false) := by
  obtain ⟨hText, hEnc, _, _⟩ := extract_outcome_cases doc enableOCR events env hne
  refine ⟨hText, ?_⟩
  intro hlow hmany
  refine ⟨hEnc hlow hmany, ?_⟩
  rw [hEnc hlow hmany]
  rfl

set_option maxRecDepth 100000 in
/-- Witness for the amended C2: one page with 120 characters of text
returns `Text`; the ten-runs-of-`"ab"` page returns `EncodingFailure`. -/
theorem C2_text_iff_char_floor_witness :
    (extractTextFromPDF
      ⟨[PageFetch.ok
          [⟨"aaaaaaaaaaaaaaaaaaaaaaaaaaaaaaaaaaaaaaaaaaaaaaaaaaaaaaaaaaaaaaaaaaaaaaaaaaaaaaaaaaaaaaaaaaaaaaaaaaaaaaaaaaaaaaaaaaaaaa", false⟩]]⟩
      false [] { createErr := none, recognize := fun _ => PageOCR.blobFail }).outcome =
      .text (blocksFrom 1
        [PageFetch.ok
          [⟨"aaaaaaaaaaaaaaaaaaaaaaaaaaaaaaaaaaaaaaaaaaaaaaaaaaaaaaaaaaaaaaaaaaaaaaaaaaaaaaaaaaaaaaaaaaaaaaaaaaaaaaaaaaaaaaaaaaaaaa", false⟩]])
        ⟨[PageFetch.ok
          [⟨"aaaaaaaaaaaaaaaaaaaaaaaaaaaaaaaaaaaaaaaaaaaaaaaaaaaaaaaaaaaaaaaaaaaaaaaaaaaaaaaaaaaaaaaaaaaaaaaaaaaaaaaaaaaaaaaaaaaaaa", false⟩]]⟩ ∧
    (extractTextFromPDF ⟨[PageFetch.ok (List.replicate 10 ⟨"ab", false⟩)]⟩ false []
      { createErr := none, recognize := fun _ => PageOCR.blobFail }).outcome =
      .encodingFailure := by
  constructor
  · exact (C2_text_iff_char_floor
      ⟨[PageFetch.ok
          [⟨"aaaaaaaaaaaaaaaaaaaaaaaaaaaaaaaaaaaaaaaaaaaaaaaaaaaaaaaaaaaaaaaaaaaaaaaaaaaaaaaaaaaaaaaaaaaaaaaaaaaaaaaaaaaaaaaaaaaaaa", false⟩]]⟩
      false [] { createErr := none, recognize := fun _ => PageOCR.blobFail }
      (by decide)).1 (by decide)
  · exact ((C2_text_iff_char_floor ⟨[PageFetch.ok (List.replicate 10 ⟨"ab", false⟩)]⟩ false []
      { createErr := none, recognize := fun _ => PageOCR.blobFail }
      (by decide)).2 (by decide) (by decide)).1

/-! ## Claim C8 -/

set_option maxRecDepth 100000 in
/-- C8 (counterexample): the claim's conjunct that a timed-out page
"increments a 'page extraction failed' counter" is false of the code —
`extractTextFromPDF` keeps no such counter; its timeout path (pdfUtils.ts
80–83) only logs a warning and substitutes `{ items: [] }`.  Concretely:
the run still returns a `Text` result, and the extractor's entire
post-loop state — the `fullText` accumulator, the `totalItems` tally (the
only numeric tally it maintains) and the reported progress — after a
three-page document whose second page times out is *identical* to the
state after the same document with that page merely empty, so no counter
of failed pages is incremented anywhere on this path (the program's only
`failedPages` counter belongs to `runOCRFromPDF`, which a `Text`-result
extraction never invokes). -/
theorem C8_no_counter_cx :
    ((extractTextFromPDF
      ⟨[PageFetch.ok [⟨"aaaaaaaaaaaaaaaaaaaaaaaaaaaaaaaaaaaaaaaaaaaaaaaaaaaaaaaaaaaa", false⟩],
        PageFetch.timeout,
        PageFetch.ok [⟨"bbbbbbbbbbbbbbbbbbbbbbbbbbbbbbbbbbbbbbbbbbbbbbbbbbbbbbbbbbbb", false⟩]]⟩
      false [] { createErr := none, recognize := fun _ => PageOCR.blobFail }).outcome).isText =
      true ∧
    extractLoop
      [PageFetch.ok [⟨"aaaaaaaaaaaaaaaaaaaaaaaaaaaaaaaaaaaaaaaaaaaaaaaaaaaaaaaaaaaa", false⟩],
       PageFetch.timeout,
       PageFetch.ok [⟨"bbbbbbbbbbbbbbbbbbbbbbbbbbbbbbbbbbbbbbbbbbbbbbbbbbbbbbbbbbbb", false⟩]] =
    extractLoop
      [PageFetch.ok [⟨"aaaaaaaaaaaaaaaaaaaaaaaaaaaaaaaaaaaaaaaaaaaaaaaaaaaaaaaaaaaa", false⟩],
       PageFetch.ok [],
       PageFetch.ok [⟨"bbbbbbbbbbbbbbbbbbbbbbbbbbbbbbbbbbbbbbbbbbbbbbbbbbbbbbbbbbbb", false⟩]] := by
  constructor
  · decide
  · rfl

/-- C8 (amended): in a document where exactly one page's text fetch times
out (the 5-second deadline modelled by `PageFetch.timeout`) while the
remaining pages yield text meeting the character floor, extraction still
returns a `Text` result; the content is the correctly ordered
concatenation of the other pages' blocks, split around the failed page,
which contributes no page marker; the failure is absorbed (a console
warning) rather than aborting the whole document — but no "page
extraction failed" counter is incremented, because the extractor keeps
none (see the counterexample). -/
theorem C8_partial_timeout (A B : List (List TextItem))
    (events : List (Nat × Nat)) (env : OCREnv)
    (h100 : 100 ≤ (jsTrim (blocksFrom 1
      (A.map PageFetch.ok ++ PageFetch.timeout :: B.map PageFetch.ok))).length) :
    (extractTextFromPDF ⟨A.map PageFetch.ok ++ PageFetch.timeout :: B.map PageFetch.ok⟩
        false events env).outcome =
      .text (blocksFrom 1 (A.map PageFetch.ok ++ PageFetch.timeout :: B.map PageFetch.ok))
        ⟨A.map PageFetch.ok ++ PageFetch.timeout :: B.map PageFetch.ok⟩ ∧
    blocksFrom 1 (A.map PageFetch.ok ++ PageFetch.timeout :: B.map PageFetch.ok) =
      blocksFrom 1 (A.map PageFetch.ok) ++ blocksFrom (A.length + 2) (B.map PageFetch.ok) ∧
    pageBlock (A.length + 1) PageFetch.timeout = "" := by
  have hne : (A.map PageFetch.ok ++ PageFetch.timeout :: B.map PageFetch.ok) ≠ [] := by
    simp
  refine ⟨(extract_outcome_cases _ false events env hne).1 h100, ?_, rfl⟩
  rw [blocksFrom_append]
  rw [show blocksFrom (1 + (A.map PageFetch.ok).length) (PageFetch.timeout :: B.map PageFetch.ok) =
      pageBlock (1 + (A.map PageFetch.ok).length) PageFetch.timeout ++
        blocksFrom (1 + (A.map PageFetch.ok).length + 1) (B.map PageFetch.ok) from rfl]
  rw [show pageBlock (1 + (A.map PageFetch.ok).length) PageFetch.timeout = "" from rfl]
  rw [List.length_map]
  rw [show 1 + A.length + 1 = A.length + 2 by omega]
  rw [String.empty_append]

set_option maxRecDepth 100000 in
/-- Witness for C8: pages 1 and 3 carry 60 characters each, page 2 times
out; the result is `Text` made of the blocks of pages 1 and 3 only. -/
theorem C8_partial_timeout_witness :
    (extractTextFromPDF
      ⟨[[⟨"aaaaaaaaaaaaaaaaaaaaaaaaaaaaaaaaaaaaaaaaaaaaaaaaaaaaaaaaaaaa", false⟩]].map PageFetch.ok ++
        PageFetch.timeout ::
          [[⟨"bbbbbbbbbbbbbbbbbbbbbbbbbbbbbbbbbbbbbbbbbbbbbbbbbbbbbbbbbbbb", false⟩]].map PageFetch.ok⟩
      false [] { createErr := none, recognize := fun _ => PageOCR.blobFail }).outcome =
      .text (blocksFrom 1
        ([[⟨"aaaaaaaaaaaaaaaaaaaaaaaaaaaaaaaaaaaaaaaaaaaaaaaaaaaaaaaaaaaa", false⟩]].map PageFetch.ok ++
          PageFetch.timeout ::
            [[⟨"bbbbbbbbbbbbbbbbbbbbbbbbbbbbbbbbbbbbbbbbbbbbbbbbbbbbbbbbbbbb", false⟩]].map PageFetch.ok))
        ⟨[[⟨"aaaaaaaaaaaaaaaaaaaaaaaaaaaaaaaaaaaaaaaaaaaaaaaaaaaaaaaaaaaa", false⟩]].map PageFetch.ok ++
          PageFetch.timeout ::
            [[⟨"bbbbbbbbbbbbbbbbbbbbbbbbbbbbbbbbbbbbbbbbbbbbbbbbbbbbbbbbbbbb", false⟩]].map PageFetch.ok⟩ := by
  exact (C8_partial_timeout
    [[⟨"aaaaaaaaaaaaaaaaaaaaaaaaaaaaaaaaaaaaaaaaaaaaaaaaaaaaaaaaaaaa", false⟩]]
    [[⟨"bbbbbbbbbbbbbbbbbbbbbbbbbbbbbbbbbbbbbbbbbbbbbbbbbbbbbbbbbbbb", false⟩]]
    [] { createErr := none, recognize := fun _ => PageOCR.blobFail }
    (by decide)).1

end QuizGen
